import Mathlib

/-!
Shallow embedding of the split-and-classify engine of
`mydocs/extracting/splitter.py`: page batching with overlap, the
four-phase overlap-merge algorithm, the two-tier LLM retry wrapper,
sub-document building, and the idempotency gate of `split_and_classify`.
Python floats are modelled by exact rationals; the persistence layer is
modelled by an explicit world state.
-/

namespace Mydocs

/-- A document page (`mydocs.models.DocumentPage`); only the fields the
splitter reads are modelled. -/
structure DocumentPage where
  page_number : Nat
  id : String
  deriving DecidableEq, Repr

/-- A classified segment (`mydocs.extracting.models.SplitSegment`). -/
structure SplitSegment where
  document_type : String
  page_numbers : List Nat
  deriving DecidableEq, Repr

/-- LLM output for one batch (`LLMSplitClassifyBatchResult`). -/
structure LLMSplitClassifyBatchResult where
  result : List SplitSegment
  deriving DecidableEq, Repr

/-! ## Batching (`batch_pages_with_overlap`) -/

/-- Loop of `batch_pages_with_overlap`: Python
`for start in range(0, len(pages), step)` together with the early
`break` once a batch's end reaches the page count. `fuel` bounds the
number of iterations; the caller passes `pages.length`, which is
sufficient because `step ≥ 1`, making the out-of-fuel branch coincide
with the loop's range-exhaustion exit. -/
def batchLoop (pages : List DocumentPage) (batch_size step : Nat) :
    Nat → Nat → List (List DocumentPage)
  | 0, _ => []
  | fuel + 1, start =>
      if pages.length ≤ start then []
      else
        let batch := (pages.drop start).take batch_size
        if pages.length ≤ start + batch_size then [batch]
        else batch :: batchLoop pages batch_size step fuel (start + step)

/-- `batch_pages_with_overlap(pages, batch_size, overlap_factor)`:
divide pages into overlapping batches. -/
def batch_pages_with_overlap (pages : List DocumentPage)
    (batch_size : Nat := 12) (overlap_factor : Nat := 3) :
    List (List DocumentPage) :=
  if pages.isEmpty then []
  else
    batchLoop pages batch_size (max 1 (batch_size - overlap_factor))
      pages.length 0

/-! ## Overlap merging (`combine_overlapping_results`, 4-phase) -/

/-- `_PageTag`. -/
structure PageTag where
  document_type : String
  batch_idx : Nat
  segment_idx : Nat
  deriving DecidableEq, Repr

/-- `_centrality_score(page_num, batch_pages)`; Python floats are
modelled by exact rationals. -/
def centrality_score (page_num : Nat) (batch_pages : List DocumentPage) : ℚ :=
  let page_numbers :=
    List.insertionSort (· ≤ ·) (batch_pages.map (fun p => p.page_number))
  if page_numbers.length ≤ 1 then 1
  else
    let idx := page_numbers.indexOf page_num
    let mid : ℚ := ((page_numbers.length : ℚ) - 1) / 2
    1 - |(idx : ℚ) - mid| / mid

/-- Membership in `batch_page_sets[batch_idx]` (the set of page numbers
of one batch). -/
def inWindow (batch_pages : List DocumentPage) (pn : Nat) : Bool :=
  batch_pages.any (fun p => p.page_number == pn)

/-- Phase 1, inner two loops: the `(tag, score)` pairs that the segments
of one batch record for page `p`, with `sidx` the running
`segment_idx`. An out-of-window page number is skipped (`continue`). -/
def tagsFromSegments (p : Nat) (batch_idx : Nat)
    (batch_pages : List DocumentPage) (sidx : Nat) :
    List SplitSegment → List (PageTag × ℚ)
  | [] => []
  | seg :: rest =>
      (seg.page_numbers.filter
          (fun pn => inWindow batch_pages pn && pn == p)).map
        (fun _ => (⟨seg.document_type, batch_idx, sidx⟩,
          centrality_score p batch_pages))
        ++ tagsFromSegments p batch_idx batch_pages (sidx + 1) rest

/-- Phase 1, outer loop: tags recorded for page `p` across all batches,
`bidx` the running `batch_idx`. -/
def tagsFromBatches (p : Nat) (bidx : Nat) :
    List (LLMSplitClassifyBatchResult × List DocumentPage) →
    List (PageTag × ℚ)
  | [] => []
  | (res, bp) :: rest =>
      tagsFromSegments p bidx bp 0 res.result
        ++ tagsFromBatches p (bidx + 1) rest

/-- `page_tags[p]`: every `(tag, centrality)` pair recorded for page `p`
in Phase 1, in recording order (`[]` when `p` is untagged, matching
`page_tags.get(p, [])`). -/
def pageTags (batch_results : List LLMSplitClassifyBatchResult)
    (batches : List (List DocumentPage)) (p : Nat) : List (PageTag × ℚ) :=
  tagsFromBatches p 0 (batch_results.zip batches)

/-- The in-window page numbers recorded by the segments of one batch,
with multiplicity, in recording order. -/
def pagesFromSegments (batch_pages : List DocumentPage) :
    List SplitSegment → List Nat
  | [] => []
  | seg :: rest =>
      seg.page_numbers.filter (fun pn => inWindow batch_pages pn)
        ++ pagesFromSegments batch_pages rest

/-- All page numbers tagged in Phase 1, with multiplicity. -/
def pagesFromBatches :
    List (LLMSplitClassifyBatchResult × List DocumentPage) → List Nat
  | [] => []
  | (res, bp) :: rest =>
      pagesFromSegments bp res.result ++ pagesFromBatches rest

/-- The occurrences of tagged pages (key-insertion events of the
`page_tags` dict). -/
def taggedPageOccurrences (batch_results : List LLMSplitClassifyBatchResult)
    (batches : List (List DocumentPage)) : List Nat :=
  pagesFromBatches (batch_results.zip batches)

/-- `sorted(selected.keys())`: the tagged pages, deduplicated and in
ascending order. -/
def sortedTaggedPages (batch_results : List LLMSplitClassifyBatchResult)
    (batches : List (List DocumentPage)) : List Nat :=
  List.insertionSort (· ≤ ·) (taggedPageOccurrences batch_results batches).dedup

/-- Python `max(tag_scores, key=...)`: fold that keeps the incumbent
unless a strictly larger score appears, so the first maximal element
wins. -/
def maxLoop (best : PageTag) (bestScore : ℚ) :
    List (PageTag × ℚ) → PageTag × ℚ
  | [] => (best, bestScore)
  | (t, s) :: rest =>
      if bestScore < s then maxLoop t s rest else maxLoop best bestScore rest

/-- Phase 2 selection for one page (`none` on an untagged page; Python
would raise `KeyError`, unreachable because Phase 3 only queries tagged
pages). -/
def selectTag : List (PageTag × ℚ) → Option PageTag
  | [] => none
  | (t, s) :: rest => some (maxLoop t s rest).1

/-- Total version of `selectTag` used by Phase 3; the default is
unreachable at every call site. -/
def selectTagD (tags : List (PageTag × ℚ)) : PageTag :=
  (selectTag tags).getD ⟨"", 0, 0⟩

/-- Phase 3 loop: walk the remaining sorted pages, starting a new raw
segment whenever the selected tag differs (as a triple) from the current
one. -/
def buildRaw (sel : Nat → PageTag) (current_tag : PageTag)
    (current_pages : List Nat) : List Nat → List (PageTag × List Nat)
  | [] => [(current_tag, current_pages)]
  | p :: rest =>
      let tag := sel p
      if tag.document_type ≠ current_tag.document_type
          ∨ tag.batch_idx ≠ current_tag.batch_idx
          ∨ tag.segment_idx ≠ current_tag.segment_idx then
        (current_tag, current_pages) :: buildRaw sel tag [p] rest
      else
        buildRaw sel current_tag (current_pages ++ [p]) rest

/-- Phase 4 stitch test: among all recorded tags of the two boundary
pages, some pair shares an identical
`(batch_idx, segment_idx, document_type)` triple. -/
def sharesOrigin (boundary_tags next_tags : List (PageTag × ℚ)) : Bool :=
  boundary_tags.any (fun bt =>
    next_tags.any (fun nt =>
      bt.1.batch_idx == nt.1.batch_idx
        && bt.1.segment_idx == nt.1.segment_idx
        && bt.1.document_type == nt.1.document_type))

/-- Phase 4 loop; `prev` is `merged[-1]`. -/
def stitch (pt : Nat → List (PageTag × ℚ)) (prev : PageTag × List Nat) :
    List (PageTag × List Nat) → List (PageTag × List Nat)
  | [] => [prev]
  | (tag, pages) :: rest =>
      if tag.document_type ≠ prev.1.document_type then
        prev :: stitch pt (tag, pages) rest
      else if sharesOrigin (pt (prev.2.getLastD 0)) (pt (pages.headD 0)) then
        stitch pt (prev.1, prev.2 ++ pages) rest
      else
        prev :: stitch pt (tag, pages) rest

/-- Phase 4 over the list of raw segments (`merged = [raw_segments[0]]`
then fold; Phase 3 never yields an empty list). -/
def stitchAll (pt : Nat → List (PageTag × ℚ)) :
    List (PageTag × List Nat) → List (PageTag × List Nat)
  | [] => []
  | first :: rest => stitch pt first rest

/-- `combine_overlapping_results(batch_results, batches)`: the 4-phase
merge. -/
def combine_overlapping_results
    (batch_results : List LLMSplitClassifyBatchResult)
    (batches : List (List DocumentPage)) : List SplitSegment :=
  if batch_results.isEmpty then []
  else
    let pt := pageTags batch_results batches
    match sortedTaggedPages batch_results batches with
    | [] => []
    | p0 :: rest =>
        let sel := fun p => selectTagD (pt p)
        let raw := buildRaw sel (sel p0) [p0] rest
        (stitchAll pt raw).map (fun seg => ⟨seg.1.document_type, seg.2⟩)

/-! ## LLM call (`run_llm_split_classify`) -/

/-- Outcome of one `litellm.acompletion` attempt, as seen above
litellm's internal transport retries: a transport-level `APIError`, a
payload failing schema validation (`e` identifies the validation
error), or a valid payload. -/
inductive LLMAttemptOutcome where
  | apiError
  | invalid (e : Nat)
  | ok (r : LLMSplitClassifyBatchResult)
  deriving DecidableEq

/-- An exception escaping `run_llm_split_classify`: a propagated
transport error, the last validation error, or Python's `raise None`
(a `TypeError`, reachable only when `validation_retries == 0`). -/
inductive LLMError where
  | transport
  | validation (e : Nat)
  | noLastError
  deriving DecidableEq, Repr

/-- Retry loop of `run_llm_split_classify`: `attempt` is the zero-based
attempt counter, `remaining` the attempts left of `validation_retries`,
`last_error` the last validation error seen. Returns the outcome
together with the number of `litellm` calls made. -/
def runLlmLoop (outcomes : Nat → LLMAttemptOutcome) (last_error : Option Nat)
    (attempt remaining : Nat) :
    Except LLMError LLMSplitClassifyBatchResult × Nat :=
  match remaining with
  | 0 =>
      (Except.error (match last_error with
        | some e => LLMError.validation e
        | none => LLMError.noLastError), attempt)
  | r + 1 =>
      match outcomes attempt with
      | LLMAttemptOutcome.apiError => (Except.error LLMError.transport, attempt + 1)
      | LLMAttemptOutcome.ok res => (Except.ok res, attempt + 1)
      | LLMAttemptOutcome.invalid e => runLlmLoop outcomes (some e) (attempt + 1) r

/-- `run_llm_split_classify(context, prompt_config, batch_num,
total_batches)` with the LLM modelled by the per-attempt outcome oracle
`outcomes`; prompt construction does not affect control flow and is
omitted. -/
def run_llm_split_classify (outcomes : Nat → LLMAttemptOutcome)
    (validation_retries : Nat) :
    Except LLMError LLMSplitClassifyBatchResult × Nat :=
  runLlmLoop outcomes none 0 validation_retries

/-! ## Persistence model and `split_and_classify` -/

/-- `SubDocumentPageRef` (`mydocs.models`). -/
structure SubDocumentPageRef where
  document_id : String
  page_id : String
  page_number : Nat
  deriving DecidableEq, Repr

/-- Separator for the modelled composite id. -/
def idSep : String := "|"

/-- `generate_composite_id` (external library `lightodm`). Modelled
from the spec: a deterministic, collision-resistant hash of the
components, modelled as their concatenation. -/
def generate_composite_id (components : List String) : String :=
  String.intercalate idSep components

/-- `SubDocument` (`mydocs.models`); `created_at`, a wall-clock
timestamp, is omitted. -/
structure SubDocument where
  id : String
  case_type : String
  document_type : String
  page_refs : List SubDocumentPageRef
  deriving DecidableEq, Repr

/-- Run metadata persisted on the parent document. Modelled from the
spec: the class `SplitClassifyMeta` of `mydocs.models` is not in the
sources; its fields follow the spec's `ClassificationRunMetadata` and
the constructor call in `split_and_classify` (`completed_at`, a
wall-clock timestamp, is omitted). -/
structure SplitClassifyMeta where
  file_sha256 : String
  config_hash : String
  case_type : String
  deriving DecidableEq, Repr

/-- The parent `Document`; only the fields `split_and_classify` reads
or writes are modelled: `file_metadata` is reduced to its `sha256`
entry, and an absent (`None`) sub-document list is identified with the
empty list (both are falsy in the idempotency gate). -/
structure Document where
  file_metadata : Option String
  subdocuments : List SubDocument
  split_classify_meta : Option SplitClassifyMeta
  deriving DecidableEq, Repr

/-- `SplitClassifyResult` (`mydocs.extracting.models`). -/
structure SplitClassifyResult where
  segments : List SplitSegment
  subdocuments : List SubDocument := []
  deriving DecidableEq, Repr

/-- `PromptConfig` (`mydocs.extracting.models`), restricted to the
fields `splitter.py` reads. -/
structure PromptConfig where
  model : String := "gpt-4.1"
  sys_prompt_template : String := ""
  user_prompt_template : String := ""
  validation_retries : Nat := 3
  transport_retries : Nat := 3
  batch_size : Option Nat := none
  overlap_factor : Option Nat := none
  deriving DecidableEq, Repr

/-- `json.dumps(prompt_config.model_dump(), sort_keys=True)` over the
modelled fields: a canonical serialization, deterministic in the
configuration. -/
def dumpConfig (pc : PromptConfig) : String :=
  String.intercalate idSep [pc.model, pc.sys_prompt_template,
    pc.user_prompt_template, toString pc.validation_retries,
    toString pc.transport_retries, toString pc.batch_size,
    toString pc.overlap_factor]

/-- `calculate_content_hash` (`prompt_utils.py`): the SHA-256 hex
digest of the content string; the digest is modelled by the identity
injection, preserving determinism and equality-propagation. -/
def calculate_content_hash (content : String) : String := content

/-- Python `x or default` on an optional integer field (`None` and `0`
are both falsy). -/
def pyOr (x : Option Nat) (d : Nat) : Nat :=
  match x with
  | none => d
  | some n => if n == 0 then d else n

deriving instance DecidableEq for Except

/-- The persistent state `split_and_classify` touches: the parent
document (`Document.aget`) and its pages (`DocumentPage.afind`). -/
structure World where
  doc : Option Document
  pages : List DocumentPage
  deriving DecidableEq, Repr

/-- The idempotency gate: Python
`if not force and doc.subdocuments and doc.split_classify_meta:`
together with the inner hash and case-type comparison. -/
def cacheHit (force : Bool) (doc : Document)
    (file_sha256 config_hash case_type : String) : Bool :=
  !force && !doc.subdocuments.isEmpty &&
    (match doc.split_classify_meta with
     | none => false
     | some m =>
         m.file_sha256 == file_sha256 && m.config_hash == config_hash
           && m.case_type == case_type)

/-- The `CACHED` branch's list comprehension: rebuild the result view
from persisted sub-documents. -/
def cachedSegments (subdocuments : List SubDocument) : List SplitSegment :=
  subdocuments.map (fun sd =>
    ⟨sd.document_type,
      List.insertionSort (· ≤ ·) (sd.page_refs.map (fun pr => pr.page_number))⟩)

/-- `page_by_number.get(pn)`: the dict comprehension keeps the last
page carrying a given page number. -/
def pageByNumber (pages : List DocumentPage) (pn : Nat) : Option DocumentPage :=
  pages.reverse.find? (fun p => p.page_number == pn)

/-- Python `min` of a nonempty list (`0` stands for the unreachable
`min([])`). -/
def listMin : List Nat → Nat
  | [] => 0
  | x :: xs => xs.foldl Nat.min x

/-- One iteration of `_build_subdocuments`: resolve the segment's page
numbers, skip the segment if nothing resolves. -/
def buildSubdocument (document_id case_type : String)
    (pages : List DocumentPage) (segment : SplitSegment) :
    Option SubDocument :=
  let page_refs := segment.page_numbers.filterMap (fun pn =>
    (pageByNumber pages pn).map (fun page =>
      (⟨document_id, page.id, pn⟩ : SubDocumentPageRef)))
  if page_refs.isEmpty then none
  else
    let min_page := listMin (page_refs.map (fun pr => pr.page_number))
    some ⟨generate_composite_id
        [document_id, case_type, segment.document_type, toString min_page],
      case_type, segment.document_type, page_refs⟩

/-- `_build_subdocuments(document_id, case_type, segments, pages)`. -/
def build_subdocuments (document_id case_type : String)
    (segments : List SplitSegment) (pages : List DocumentPage) :
    List SubDocument :=
  segments.filterMap (buildSubdocument document_id case_type pages)

/-- The per-batch classification loop of `split_and_classify`, with the
classifier modelled by `oracle` (1-based `batch_num` and the batch map
to the outcome of `run_llm_split_classify`); returns the collected
results, or the first raised error, and the number of classifier
invocations. -/
def classifyLoop
    (oracle : Nat → List DocumentPage → Except LLMError LLMSplitClassifyBatchResult)
    (batch_num : Nat) :
    List (List DocumentPage) →
    Except LLMError (List LLMSplitClassifyBatchResult) × Nat
  | [] => (Except.ok [], 0)
  | b :: rest =>
      match oracle batch_num b with
      | Except.error e => (Except.error e, 1)
      | Except.ok r =>
          match classifyLoop oracle (batch_num + 1) rest with
          | (Except.error e, n) => (Except.error e, n + 1)
          | (Except.ok rs, n) => (Except.ok (r :: rs), n + 1)

/-- `pages = sorted(pages, key=lambda p: p.page_number)`. -/
def sortPages (pages : List DocumentPage) : List DocumentPage :=
  List.insertionSort (fun a b => a.page_number ≤ b.page_number) pages

/-- `split_and_classify(document_id, prompt_config, content_mode,
case_type, force)` over an explicit world state, classification
modelled by `oracle`. Returns the result (or the propagated error),
the world after the call, and the number of classifier invocations;
`content_mode` only affects prompt text and is omitted. -/
def split_and_classify (w : World) (document_id : String)
    (prompt_config : PromptConfig) (case_type : String) (force : Bool)
    (oracle : Nat → List DocumentPage → Except LLMError LLMSplitClassifyBatchResult) :
    Except LLMError SplitClassifyResult × World × Nat :=
  match w.doc with
  | none => (Except.ok ⟨[], []⟩, w, 0)
  | some doc =>
      let file_sha256 := doc.file_metadata.getD ""
      let config_hash := calculate_content_hash (dumpConfig prompt_config)
      if cacheHit force doc file_sha256 config_hash case_type then
        (Except.ok ⟨cachedSegments doc.subdocuments, doc.subdocuments⟩, w, 0)
      else
        let batch_size := pyOr prompt_config.batch_size 12
        let overlap_factor := pyOr prompt_config.overlap_factor 3
        let pages := sortPages w.pages
        if pages.isEmpty then (Except.ok ⟨[], []⟩, w, 0)
        else
          let batches := batch_pages_with_overlap pages batch_size overlap_factor
          match classifyLoop oracle 1 batches with
          | (Except.error e, n) => (Except.error e, w, n)
          | (Except.ok batch_results, n) =>
              let segments := combine_overlapping_results batch_results batches
              let subdocuments :=
                build_subdocuments document_id case_type segments pages
              let docNew := { doc with
                subdocuments := subdocuments,
                split_classify_meta :=
                  some ⟨file_sha256, config_hash, case_type⟩ }
              (Except.ok ⟨segments, subdocuments⟩, { w with doc := some docNew }, n)

/-! ## Example fixtures -/

/-- Pages `lo..hi` with synthetic ids. -/
def mkPages (lo hi : Nat) : List DocumentPage :=
  (List.range (hi + 1 - lo)).map (fun i => ⟨lo + i, toString (lo + i)⟩)

/-- A batch result built from `(document_type, page_numbers)` pairs. -/
def mkRes (segs : List (String × List Nat)) : LLMSplitClassifyBatchResult :=
  ⟨segs.map (fun s => ⟨s.1, s.2⟩)⟩

/-- A batch result with every segment's page numbers restricted to the
given window (the well-formed counterpart of malformed output). -/
def restrictToWindow (res : LLMSplitClassifyBatchResult)
    (batch_pages : List DocumentPage) : LLMSplitClassifyBatchResult :=
  ⟨res.result.map (fun seg =>
    ⟨seg.document_type,
      seg.page_numbers.filter (fun pn => inWindow batch_pages pn)⟩)⟩

/-- All batch results restricted to their own batch windows; results
without a paired batch (ignored by the merger's `zip`) are kept
unchanged. -/
def restrictResults (batch_results : List LLMSplitClassifyBatchResult)
    (batches : List (List DocumentPage)) : List LLMSplitClassifyBatchResult :=
  (batch_results.zip batches).map (fun x => restrictToWindow x.1 x.2)
    ++ batch_results.drop batches.length

/-- Recording order of Phase 1: non-decreasing
`(batch_idx, segment_idx)` lexicographic order. -/
def tagLe (a b : PageTag × ℚ) : Prop :=
  a.1.batch_idx < b.1.batch_idx
    ∨ (a.1.batch_idx = b.1.batch_idx ∧ a.1.segment_idx ≤ b.1.segment_idx)

/-! ## Theorems -/

/-- C2: in the single-batch example with window pages 1–6 and
classifier segments receipt[1,2], receipt[3,4], receipt[5,6], the
merger returns exactly those three segments, in order; and in general
the Phase 4 stitch condition is never satisfied by a pair of tags
originating in the same batch but in different segments (no two
segments of one batch ever share a `segment_idx`). -/
theorem C2_same_type_segments_within_batch_never_merge :
    (combine_overlapping_results
        [mkRes [("receipt", [1, 2]), ("receipt", [3, 4]), ("receipt", [5, 6])]]
        [mkPages 1 6]
      = [⟨"receipt", [1, 2]⟩, ⟨"receipt", [3, 4]⟩, ⟨"receipt", [5, 6]⟩])
    ∧ ∀ bt nt : PageTag × ℚ, bt.1.batch_idx = nt.1.batch_idx →
        bt.1.segment_idx ≠ nt.1.segment_idx →
        sharesOrigin [bt] [nt] = false := by
  constructor
  · with_unfolding_all decide
  · intro bt nt _hb hs
    simp only [sharesOrigin, List.any_cons, List.any_nil, Bool.or_false,
      Bool.and_eq_false_imp, Bool.and_eq_true, beq_iff_eq]
    intro h
    exact absurd h.2 hs

/-- C2 witness: the stitch condition rejects two same-batch tags with
distinct segment indices. -/
theorem C2_same_type_segments_within_batch_never_merge_witness :
    sharesOrigin [((⟨"receipt", 0, 0⟩ : PageTag), (1 : ℚ))]
      [((⟨"receipt", 0, 1⟩ : PageTag), (1 : ℚ))] = false :=
  C2_same_type_segments_within_batch_never_merge.2 _ _ rfl (by decide)

/-- C3: one `invoice` document split over the window boundary of
batches 1–5 and 4–8 is stitched back into a single final segment with
pages 1–8. -/
theorem C3_cross_batch_stitch_rejoins_document :
    combine_overlapping_results
        [mkRes [("invoice", [1, 2, 3, 4, 5])],
         mkRes [("invoice", [4, 5, 6, 7, 8])]]
        [mkPages 1 5, mkPages 4 8]
      = [⟨"invoice", [1, 2, 3, 4, 5, 6, 7, 8]⟩] := by
  with_unfolding_all decide

/-- C4: boundary stitch selectivity — the boundary receipts over pages
4,5 stitch into one segment while the earlier receipt[1,2,3] stays
separate, and invoice[6,7,8] stays separate. -/
theorem C4_boundary_stitch_is_selective :
    combine_overlapping_results
        [mkRes [("receipt", [1, 2, 3]), ("receipt", [4, 5])],
         mkRes [("receipt", [4, 5]), ("invoice", [6, 7, 8])]]
        [mkPages 1 5, mkPages 4 8]
      = [⟨"receipt", [1, 2, 3]⟩, ⟨"receipt", [4, 5]⟩, ⟨"invoice", [6, 7, 8]⟩] := by
  with_unfolding_all decide

/-- One step of the retry loop when attempts remain. -/
theorem runLlmLoop_succ (outcomes : Nat → LLMAttemptOutcome)
    (last : Option Nat) (a r : Nat) :
    runLlmLoop outcomes last a (r + 1) =
      (match outcomes a with
       | LLMAttemptOutcome.apiError => (Except.error LLMError.transport, a + 1)
       | LLMAttemptOutcome.ok res => (Except.ok res, a + 1)
       | LLMAttemptOutcome.invalid e =>
           runLlmLoop outcomes (some e) (a + 1) r) := rfl

/-- Transport tier of the retry loop: with invalid payloads up to
attempt `k` and an `APIError` at attempt `k`, the loop raises the
transport error immediately after `k + 1` calls. -/
theorem runLlmLoop_transport (outcomes : Nat → LLMAttemptOutcome) :
    ∀ (k : Nat), ∀ (r a : Nat) (last : Option Nat), k < r →
      (∀ i, i < k → ∃ ev, outcomes (a + i) = LLMAttemptOutcome.invalid ev) →
      outcomes (a + k) = LLMAttemptOutcome.apiError →
      runLlmLoop outcomes last a r = (Except.error LLMError.transport, a + k + 1)
  | 0, r, a, last, hk, _hpre, hapi => by
      match r, hk with
      | (r' + 1), _ =>
        rw [Nat.add_zero] at hapi
        rw [runLlmLoop_succ, hapi]
  | (k + 1), r, a, last, hk, hpre, hapi => by
      match r, hk with
      | (r' + 1), hk =>
        obtain ⟨ev, hev⟩ := hpre 0 (Nat.succ_pos k)
        rw [Nat.add_zero] at hev
        rw [runLlmLoop_succ, hev]
        show runLlmLoop outcomes (some ev) (a + 1) r' = _
        have := runLlmLoop_transport outcomes k r' (a + 1) (some ev)
          (Nat.lt_of_succ_lt_succ hk)
          (fun i hi => by
            have := hpre (i + 1) (Nat.succ_lt_succ hi)
            rwa [show a + (i + 1) = a + 1 + i by omega] at this)
          (by rwa [show a + 1 + k = a + (k + 1) by omega])
        rw [show a + (k + 1) + 1 = a + 1 + k + 1 by omega]
        exact this

/-- Validation tier of the retry loop: when every remaining attempt
fails validation, the loop raises the last validation error after
exactly `r` further calls. -/
theorem runLlmLoop_exhaust (outcomes : Nat → LLMAttemptOutcome) (e : Nat → Nat) :
    ∀ (r : Nat), ∀ (a : Nat) (last : Option Nat), 0 < r →
      (∀ i, i < r → outcomes (a + i) = LLMAttemptOutcome.invalid (e (a + i))) →
      runLlmLoop outcomes last a r
        = (Except.error (LLMError.validation (e (a + r - 1))), a + r)
  | 0, _, _, hr, _ => absurd hr (by omega)
  | 1, a, last, _, hall => by
      have h0 := hall 0 Nat.one_pos
      rw [Nat.add_zero] at h0
      rw [runLlmLoop_succ, h0]
      show (Except.error (LLMError.validation (e a)), a + 1) = _
      rw [show a + 1 - 1 = a by omega]
  | (r + 2), a, last, _, hall => by
      have h0 := hall 0 (by omega)
      rw [Nat.add_zero] at h0
      rw [runLlmLoop_succ, h0]
      show runLlmLoop outcomes (some (e a)) (a + 1) (r + 1) = _
      have := runLlmLoop_exhaust outcomes e (r + 1) (a + 1)
        (some (e a)) (by omega)
        (fun i hi => by
          have := hall (i + 1) (by omega)
          rwa [show a + (i + 1) = a + 1 + i by omega] at this)
      rw [show a + (r + 2) - 1 = a + 1 + (r + 1) - 1 by omega,
        show a + (r + 2) = a + 1 + (r + 1) by omega]
      exact this

/-- C8: two-tier retry policy of `run_llm_split_classify` — a
transport-level `APIError` propagates immediately (after the failing
call, with no further validation-tier retry), while schema-validation
failures are retried up to `validation_retries` attempts and, once
attempts are exhausted, the last validation error is raised. -/
theorem C8_two_tier_retry_policy (outcomes : Nat → LLMAttemptOutcome)
    (validation_retries : Nat) (e : Nat → Nat) :
    (∀ k, k < validation_retries →
      (∀ i, i < k → ∃ ev, outcomes i = LLMAttemptOutcome.invalid ev) →
      outcomes k = LLMAttemptOutcome.apiError →
      run_llm_split_classify outcomes validation_retries
        = (Except.error LLMError.transport, k + 1))
    ∧ (0 < validation_retries →
      (∀ i, i < validation_retries → outcomes i = LLMAttemptOutcome.invalid (e i)) →
      run_llm_split_classify outcomes validation_retries
        = (Except.error (LLMError.validation (e (validation_retries - 1))),
            validation_retries)) := by
  constructor
  · intro k hk hpre hapi
    have := runLlmLoop_transport outcomes k validation_retries 0 none hk
      (fun i hi => by simpa using hpre i hi) (by simpa using hapi)
    simpa [run_llm_split_classify] using this
  · intro hr hall
    have := runLlmLoop_exhaust outcomes e validation_retries 0 none hr
      (fun i hi => by simpa using hall i hi)
    simpa [run_llm_split_classify] using this

/-- C8 witness: with 3 retries, invalid then transport error stops at 2
calls; with all 2 attempts invalid, the second validation error is
raised after 2 calls. -/
theorem C8_two_tier_retry_policy_witness :
    (run_llm_split_classify
        (fun i => if i == 0 then LLMAttemptOutcome.invalid 7
          else LLMAttemptOutcome.apiError) 3
      = (Except.error LLMError.transport, 2))
    ∧ (run_llm_split_classify (fun i => LLMAttemptOutcome.invalid (i + 10)) 2
      = (Except.error (LLMError.validation 11), 2)) := by
  constructor
  · exact (C8_two_tier_retry_policy _ 3 (fun _ => 0)).1 1 (by decide)
      (fun i hi => ⟨7, by interval_cases i; rfl⟩) rfl
  · exact (C8_two_tier_retry_policy _ 2 (fun i => i + 10)).2 (by decide)
      (fun i hi => rfl)

/-- Unfolding of one iteration of the batching loop. -/
theorem batchLoop_succ_eq (pages : List DocumentPage) (bs step fuel start : Nat) :
    batchLoop pages bs step (fuel + 1) start =
      if pages.length ≤ start then []
      else if pages.length ≤ start + bs then [(pages.drop start).take bs]
      else (pages.drop start).take bs
        :: batchLoop pages bs step fuel (start + step) := rfl

/-- Every batch emitted by the loop is the `batch_size`-window at its
offset. -/
theorem batchLoop_getElem (pages : List DocumentPage) (bs step : Nat) :
    ∀ (fuel start i : Nat) (b : List DocumentPage),
      (batchLoop pages bs step fuel start)[i]? = some b →
      b = (pages.drop (start + i * step)).take bs
  | 0, start, i, b, hb => by simp [batchLoop] at hb
  | (fuel + 1), start, i, b, hb => by
      rw [batchLoop_succ_eq] at hb
      by_cases h1 : pages.length ≤ start
      · rw [if_pos h1] at hb
        simp at hb
      · rw [if_neg h1] at hb
        by_cases h2 : pages.length ≤ start + bs
        · rw [if_pos h2] at hb
          cases i with
          | zero =>
              simp only [List.getElem?_cons_zero, Option.some.injEq] at hb
              simp [← hb]
          | succ i2 => simp at hb
        · rw [if_neg h2] at hb
          cases i with
          | zero =>
              simp only [List.getElem?_cons_zero, Option.some.injEq] at hb
              simp [← hb]
          | succ i2 =>
              rw [List.getElem?_cons_succ] at hb
              have := batchLoop_getElem pages bs step fuel (start + step) i2 b hb
              rw [this]
              congr 2
              rw [Nat.succ_mul]
              omega

/-- With sufficient fuel, the loop emits at least one batch below the
page count. -/
theorem batchLoop_ne_nil (pages : List DocumentPage) (bs step : Nat) :
    ∀ (fuel start : Nat), pages.length ≤ start + fuel * step →
      start < pages.length → batchLoop pages bs step fuel start ≠ []
  | 0, start, hfuel, hs => by
      rw [Nat.zero_mul] at hfuel
      omega
  | (fuel + 1), start, hfuel, hs => by
      rw [batchLoop_succ_eq]
      by_cases h2 : pages.length ≤ start + bs <;>
        simp [Nat.not_le.mpr hs, h2]

/-- Every batch the loop emits is drawn from the page list. -/
theorem batchLoop_subset (pages : List DocumentPage) (bs step : Nat) :
    ∀ (fuel start : Nat), ∀ b ∈ batchLoop pages bs step fuel start,
      ∀ pg ∈ b, pg ∈ pages
  | 0, start, b, hb, pg, hpg => by simp [batchLoop] at hb
  | (fuel + 1), start, b, hb, pg, hpg => by
      rw [batchLoop_succ_eq] at hb
      by_cases h1 : pages.length ≤ start
      · rw [if_pos h1] at hb
        simp at hb
      · rw [if_neg h1] at hb
        by_cases h2 : pages.length ≤ start + bs
        · rw [if_pos h2] at hb
          rw [List.mem_singleton] at hb
          subst hb
          exact List.drop_subset start pages (List.take_subset bs _ hpg)
        · rw [if_neg h2] at hb
          rcases List.mem_cons.mp hb with h | h
          · subst h
            exact List.drop_subset start pages (List.take_subset bs _ hpg)
          · exact batchLoop_subset pages bs step fuel (start + step) b h pg hpg

/-- Every batch of `batch_pages_with_overlap` is drawn from the page
list. -/
theorem batch_pages_subset (pages : List DocumentPage) (bsz ov : Nat) :
    ∀ b ∈ batch_pages_with_overlap pages bsz ov, ∀ pg ∈ b, pg ∈ pages := by
  intro b hb pg hpg
  rw [batch_pages_with_overlap] at hb
  by_cases hp : pages.isEmpty
  · rw [if_pos hp] at hb
    simp at hb
  · rw [if_neg hp] at hb
    exact batchLoop_subset pages bsz _ pages.length 0 b hb pg hpg

/-- Every page at an index at or after the loop's offset lies in some
emitted batch (this needs `step ≤ bs`, true at the call site). -/
theorem batchLoop_cover (pages : List DocumentPage) (bs step : Nat)
    (hstep : 0 < step) (hsb : step ≤ bs) :
    ∀ (fuel start j : Nat), pages.length ≤ start + fuel * step →
      start ≤ j → ∀ (hj : j < pages.length),
      ∃ b ∈ batchLoop pages bs step fuel start, pages[j] ∈ b
  | 0, start, j, hfuel, hsj, hj => by
      rw [Nat.zero_mul] at hfuel
      omega
  | (fuel + 1), start, j, hfuel, hsj, hj => by
      have hmem : ∀ (_hlt : j < start + bs),
          pages[j] ∈ (pages.drop start).take bs := by
        intro hlt
        have hlen : j - start < ((pages.drop start).take bs).length := by
          simp only [List.length_take, List.length_drop]
          omega
        have hget : ((pages.drop start).take bs)[j - start] = pages[j] := by
          rw [List.getElem_take, List.getElem_drop]
          congr 1
          omega
        exact hget ▸ List.getElem_mem hlen
      rw [batchLoop_succ_eq]
      have h1 : ¬ pages.length ≤ start := by omega
      rw [if_neg h1]
      by_cases h2 : pages.length ≤ start + bs
      · rw [if_pos h2]
        exact ⟨(pages.drop start).take bs, List.mem_singleton.mpr rfl,
          hmem (by omega)⟩
      · rw [if_neg h2]
        by_cases h3 : j < start + bs
        · exact ⟨(pages.drop start).take bs, List.mem_cons_self _ _, hmem h3⟩
        · have hfuel2 : pages.length ≤ (start + step) + fuel * step := by
            rw [Nat.succ_mul] at hfuel
            omega
          obtain ⟨b, hb, hpb⟩ := batchLoop_cover pages bs step hstep hsb
            fuel (start + step) j hfuel2 (by omega) hj
          exact ⟨b, List.mem_cons_of_mem _ hb, hpb⟩

/-- Stopping behaviour of the loop: the last emitted batch reaches the
page count and no earlier batch does. -/
theorem batchLoop_stop (pages : List DocumentPage) (bs step : Nat)
    (hstep : 0 < step) (hsb : step ≤ bs) :
    ∀ (fuel start : Nat), pages.length ≤ start + fuel * step →
      start < pages.length →
      (pages.length ≤
        ((batchLoop pages bs step fuel start).length - 1) * step + start + bs)
      ∧ ∀ i, i + 1 < (batchLoop pages bs step fuel start).length →
          i * step + start + bs < pages.length
  | 0, start, hfuel, hs => by
      rw [Nat.zero_mul] at hfuel
      omega
  | (fuel + 1), start, hfuel, hs => by
      rw [batchLoop_succ_eq, if_neg (Nat.not_le.mpr hs)]
      by_cases h2 : pages.length ≤ start + bs
      · rw [if_pos h2]
        constructor
        · simpa using h2
        · intro i hi
          simp at hi
      · rw [if_neg h2]
        have hs2 : start + step < pages.length := by omega
        have hfuel2 : pages.length ≤ (start + step) + fuel * step := by
          rw [Nat.succ_mul] at hfuel
          omega
        obtain ⟨ih1, ih2⟩ := batchLoop_stop pages bs step hstep hsb
          fuel (start + step) hfuel2 hs2
        have hne := batchLoop_ne_nil pages bs step fuel (start + step) hfuel2 hs2
        have hlen : 1 ≤ (batchLoop pages bs step fuel (start + step)).length := by
          cases hl : batchLoop pages bs step fuel (start + step) with
          | nil => exact absurd hl hne
          | cons x xs => simp
        obtain ⟨m, hm⟩ : ∃ m,
            (batchLoop pages bs step fuel (start + step)).length = m + 1 :=
          ⟨(batchLoop pages bs step fuel (start + step)).length - 1, by omega⟩
        constructor
        · simp only [List.length_cons]
          rw [hm, Nat.add_sub_cancel, Nat.succ_mul]
          rw [hm, Nat.add_sub_cancel] at ih1
          omega
        · intro i hi
          simp only [List.length_cons] at hi
          cases i with
          | zero => omega
          | succ i2 =>
              have := ih2 i2 (by omega)
              rw [Nat.succ_mul]
              omega

/-- C6: `batch_pages_with_overlap` emits the `batch_size`-page window
at each multiple of `step = max 1 (batch_size - overlap_factor)`, stops
after the first batch whose end reaches the page count, covers every
page, maps empty input to empty output, and yields exactly one batch
when `batch_size` reaches the page count. -/
theorem C6_page_batcher_correct (pages : List DocumentPage)
    (batch_size overlap_factor : Nat) (hbs : 1 ≤ batch_size) :
    (pages = [] → batch_pages_with_overlap pages batch_size overlap_factor = [])
    ∧ (∀ i b, (batch_pages_with_overlap pages batch_size overlap_factor)[i]? = some b →
        b = (pages.drop (i * max 1 (batch_size - overlap_factor))).take batch_size)
    ∧ (∀ p ∈ pages,
        ∃ b ∈ batch_pages_with_overlap pages batch_size overlap_factor, p ∈ b)
    ∧ (pages ≠ [] → pages.length ≤ batch_size →
        batch_pages_with_overlap pages batch_size overlap_factor = [pages])
    ∧ (pages ≠ [] →
        (pages.length ≤
          ((batch_pages_with_overlap pages batch_size overlap_factor).length - 1)
            * max 1 (batch_size - overlap_factor) + batch_size)
        ∧ ∀ i, i + 1 < (batch_pages_with_overlap pages batch_size overlap_factor).length →
            i * max 1 (batch_size - overlap_factor) + batch_size < pages.length) := by
  have hstep : 0 < max 1 (batch_size - overlap_factor) :=
    Nat.lt_of_lt_of_le Nat.zero_lt_one (Nat.le_max_left 1 _)
  have hsb : max 1 (batch_size - overlap_factor) ≤ batch_size := by omega
  have hfuel0 : pages.length ≤ 0 + pages.length * max 1 (batch_size - overlap_factor) := by
    have h1 := Nat.mul_le_mul_left pages.length
      (Nat.le_max_left 1 (batch_size - overlap_factor))
    omega
  refine ⟨fun hp => by simp [batch_pages_with_overlap, hp], ?_, ?_, ?_, ?_⟩
  · intro i b hb
    by_cases hp : pages = []
    · simp [batch_pages_with_overlap, hp] at hb
    · rw [batch_pages_with_overlap, if_neg (by simpa using hp)] at hb
      have := batchLoop_getElem pages batch_size _ pages.length 0 i b hb
      simpa using this
  · intro p hp
    have hne : pages ≠ [] := by rintro rfl; simp at hp
    obtain ⟨j, hj, rfl⟩ := List.mem_iff_getElem.mp hp
    rw [batch_pages_with_overlap, if_neg (by simpa using hne)]
    exact batchLoop_cover pages batch_size _ hstep hsb pages.length 0 j
      hfuel0 (Nat.zero_le j) hj
  · intro hne hlen
    rw [batch_pages_with_overlap, if_neg (by simpa using hne)]
    obtain ⟨L, hL⟩ : ∃ L, pages.length = L + 1 := by
      have : 0 < pages.length := List.length_pos.mpr hne
      exact ⟨pages.length - 1, by omega⟩
    rw [hL, batchLoop_succ_eq]
    have h0 : ¬ pages.length ≤ 0 := by
      simpa using hne
    rw [if_neg h0, if_pos (by omega)]
    simp [List.take_of_length_le hlen]
  · intro hne
    have h0 : 0 < pages.length := List.length_pos.mpr hne
    rw [batch_pages_with_overlap, if_neg (by simpa using hne)]
    obtain ⟨hstop1, hstop2⟩ := batchLoop_stop pages batch_size _ hstep hsb
      pages.length 0 hfuel0 h0
    constructor
    · simpa using hstop1
    · intro i hi
      have := hstop2 i hi
      omega

/-- C6 witness: the batcher at pages 1–5, batch size 2, overlap 1. -/
theorem C6_page_batcher_correct_witness :
    (mkPages 1 5 = [] → batch_pages_with_overlap (mkPages 1 5) 2 1 = [])
    ∧ (∀ i b, (batch_pages_with_overlap (mkPages 1 5) 2 1)[i]? = some b →
        b = ((mkPages 1 5).drop (i * max 1 (2 - 1))).take 2)
    ∧ (∀ p ∈ mkPages 1 5, ∃ b ∈ batch_pages_with_overlap (mkPages 1 5) 2 1, p ∈ b)
    ∧ (mkPages 1 5 ≠ [] → (mkPages 1 5).length ≤ 2 →
        batch_pages_with_overlap (mkPages 1 5) 2 1 = [mkPages 1 5])
    ∧ (mkPages 1 5 ≠ [] →
        ((mkPages 1 5).length ≤
          ((batch_pages_with_overlap (mkPages 1 5) 2 1).length - 1) * max 1 (2 - 1) + 2)
        ∧ ∀ i, i + 1 < (batch_pages_with_overlap (mkPages 1 5) 2 1).length →
            i * max 1 (2 - 1) + 2 < (mkPages 1 5).length) :=
  C6_page_batcher_correct (mkPages 1 5) 2 1 (by decide)

/-- Restricting a batch's segments to its own window leaves the tags it
records for any page unchanged. -/
theorem tagsFromSegments_restrict (p bidx : Nat) (bp : List DocumentPage) :
    ∀ (segs : List SplitSegment) (sidx : Nat),
      tagsFromSegments p bidx bp sidx
          (segs.map (fun seg =>
            ⟨seg.document_type,
              seg.page_numbers.filter (fun pn => inWindow bp pn)⟩))
        = tagsFromSegments p bidx bp sidx segs
  | [], _ => rfl
  | seg :: rest, sidx => by
      simp only [List.map_cons, tagsFromSegments]
      rw [tagsFromSegments_restrict p bidx bp rest (sidx + 1)]
      congr 1
      rw [List.filter_filter]
      congr 1
      apply List.filter_congr
      intro a _
      cases inWindow bp a <;> simp

/-- Restricting likewise leaves the tagged page occurrences of one
batch unchanged. -/
theorem pagesFromSegments_restrict (bp : List DocumentPage) :
    ∀ (segs : List SplitSegment),
      pagesFromSegments bp
          (segs.map (fun seg =>
            ⟨seg.document_type,
              seg.page_numbers.filter (fun pn => inWindow bp pn)⟩))
        = pagesFromSegments bp segs
  | [] => rfl
  | seg :: rest => by
      simp only [List.map_cons, pagesFromSegments]
      rw [pagesFromSegments_restrict bp rest]
      congr 1
      rw [List.filter_filter]
      apply List.filter_congr
      intro a _
      cases inWindow bp a <;> simp

/-- Zipping the restricted results with the batches restricts each
zipped pair. -/
theorem restrictResults_zip :
    ∀ (br : List LLMSplitClassifyBatchResult) (bs : List (List DocumentPage)),
      (restrictResults br bs).zip bs
        = (br.zip bs).map (fun x => (restrictToWindow x.1 x.2, x.2))
  | [], bs => by cases bs <;> rfl
  | (a :: br2), [] => rfl
  | (a :: br2), (b :: bs2) => by
      simp only [restrictResults, List.zip_cons_cons, List.map_cons,
        List.length_cons, List.drop_succ_cons, List.cons_append]
      congr 1
      have := restrictResults_zip br2 bs2
      simpa [restrictResults] using this

/-- Phase 1 records the same tags for well-formed (window-restricted)
results as for the raw results. -/
theorem tagsFromBatches_restrict (p : Nat) :
    ∀ (l : List (LLMSplitClassifyBatchResult × List DocumentPage)) (bidx : Nat),
      tagsFromBatches p bidx (l.map (fun x => (restrictToWindow x.1 x.2, x.2)))
        = tagsFromBatches p bidx l
  | [], _ => rfl
  | ((res, bp) :: rest), bidx => by
      simp only [List.map_cons, tagsFromBatches]
      rw [tagsFromBatches_restrict p rest (bidx + 1)]
      congr 1
      simp only [restrictToWindow]
      exact tagsFromSegments_restrict p bidx bp res.result 0

/-- Phase 1 likewise collects the same tagged pages. -/
theorem pagesFromBatches_restrict :
    ∀ (l : List (LLMSplitClassifyBatchResult × List DocumentPage)),
      pagesFromBatches (l.map (fun x => (restrictToWindow x.1 x.2, x.2)))
        = pagesFromBatches l
  | [] => rfl
  | ((res, bp) :: rest) => by
      simp only [List.map_cons, pagesFromBatches]
      rw [pagesFromBatches_restrict rest]
      congr 1
      simp only [restrictToWindow]
      exact pagesFromSegments_restrict bp res.result

/-- Restriction preserves emptiness of the batch-result list. -/
theorem restrictResults_isEmpty (br : List LLMSplitClassifyBatchResult)
    (bs : List (List DocumentPage)) :
    (restrictResults br bs).isEmpty = br.isEmpty := by
  cases br with
  | nil => cases bs <;> rfl
  | cons a br2 =>
      cases bs with
      | nil => rfl
      | cons b bs2 => rfl

/-- Every tag recorded by one batch's segments targets a page of that
batch's own window, and carries that batch's index. -/
theorem tagsFromSegments_inWindow (p bidx : Nat) (bp : List DocumentPage) :
    ∀ (segs : List SplitSegment) (sidx : Nat) (tag : PageTag) (s : ℚ),
      (tag, s) ∈ tagsFromSegments p bidx bp sidx segs →
      inWindow bp p = true ∧ tag.batch_idx = bidx
  | [], _, _, _, h => absurd h (List.not_mem_nil _)
  | (seg :: rest), sidx, tag, s, h => by
      simp only [tagsFromSegments, List.mem_append] at h
      rcases h with h | h
      · obtain ⟨pn, hpn, heq⟩ := List.mem_map.mp h
        have hf := List.of_mem_filter hpn
        simp only [Bool.and_eq_true, beq_iff_eq] at hf
        obtain ⟨hw, rfl⟩ := hf
        rw [Prod.mk.injEq] at heq
        obtain ⟨h1, -⟩ := heq
        subst h1
        exact ⟨hw, rfl⟩
      · exact tagsFromSegments_inWindow p bidx bp rest (sidx + 1) tag s h

/-- Every tag recorded in Phase 1 targets a page inside the window of
its own batch. -/
theorem tagsFromBatches_inWindow (p : Nat) :
    ∀ (l : List (LLMSplitClassifyBatchResult × List DocumentPage)) (bidx : Nat)
      (tag : PageTag) (s : ℚ),
      (tag, s) ∈ tagsFromBatches p bidx l →
      ∃ j res bp, l[j]? = some (res, bp) ∧ tag.batch_idx = bidx + j
        ∧ inWindow bp p = true
  | [], _, _, _, h => absurd h (List.not_mem_nil _)
  | ((res, bp) :: rest), bidx, tag, s, h => by
      simp only [tagsFromBatches, List.mem_append] at h
      rcases h with h | h
      · obtain ⟨hw, hb⟩ := tagsFromSegments_inWindow p bidx bp res.result 0 tag s h
        exact ⟨0, res, bp, by simp, by omega, hw⟩
      · obtain ⟨j, res2, bp2, hj, hb, hw⟩ :=
          tagsFromBatches_inWindow p rest (bidx + 1) tag s h
        exact ⟨j + 1, res2, bp2, by simpa using hj, by omega, hw⟩

/-- The second component of a zip, recovered from an indexed element. -/
theorem zip_getElem_right {α β : Type} :
    ∀ (l1 : List α) (l2 : List β) (i : Nat) (a : α) (b : β),
      (l1.zip l2)[i]? = some (a, b) → l2[i]? = some b
  | [], _, _, _, _, h => by simp at h
  | (x :: l1), [], i, a, b, h => by simp at h
  | (x :: l1), (y :: l2), 0, a, b, h => by
      simp only [List.zip_cons_cons, List.getElem?_cons_zero,
        Option.some.injEq, Prod.mk.injEq] at h
      simp [h.2]
  | (x :: l1), (y :: l2), (i + 1), a, b, h => by
      simp only [List.zip_cons_cons, List.getElem?_cons_succ] at h ⊢
      exact zip_getElem_right l1 l2 i a b h

/-- C7: malformed classifier output is tolerated — replacing every
segment's page numbers by their in-window part changes nothing about
the merge (out-of-window page numbers contribute no tag and the
in-window ones are processed normally, with no error raised), and every
tag recorded in Phase 1 lies in the window of its own batch. -/
theorem C7_out_of_window_page_numbers_skipped
    (batch_results : List LLMSplitClassifyBatchResult)
    (batches : List (List DocumentPage)) :
    (combine_overlapping_results (restrictResults batch_results batches) batches
      = combine_overlapping_results batch_results batches)
    ∧ ∀ p tag s, (tag, s) ∈ pageTags batch_results batches p →
        ∃ bp, batches[tag.batch_idx]? = some bp ∧ inWindow bp p = true := by
  constructor
  · have htags : pageTags (restrictResults batch_results batches) batches
        = pageTags batch_results batches := by
      funext p
      rw [pageTags, pageTags, restrictResults_zip, tagsFromBatches_restrict]
    have hocc : taggedPageOccurrences (restrictResults batch_results batches) batches
        = taggedPageOccurrences batch_results batches := by
      rw [taggedPageOccurrences, taggedPageOccurrences, restrictResults_zip,
        pagesFromBatches_restrict]
    rw [combine_overlapping_results, combine_overlapping_results,
      restrictResults_isEmpty, htags, sortedTaggedPages, sortedTaggedPages, hocc]
  · intro p tag s h
    obtain ⟨j, res, bp, hj, hb, hw⟩ :=
      tagsFromBatches_inWindow p (batch_results.zip batches) 0 tag s h
    refine ⟨bp, ?_, hw⟩
    rw [hb]
    simpa using zip_getElem_right batch_results batches j res bp hj

/-- C7 witness: in the single-batch example with a malformed page
number 99, the tag recorded for page 1 lies in the window of batch 0. -/
theorem C7_out_of_window_page_numbers_skipped_witness :
    ∃ bp, [mkPages 1 3][(⟨"receipt", 0, 0⟩ : PageTag).batch_idx]? = some bp
      ∧ inWindow bp 1 = true :=
  (C7_out_of_window_page_numbers_skipped
      [mkRes [("receipt", [1, 2, 99])]] [mkPages 1 3]).2
    1 ⟨"receipt", 0, 0⟩ (centrality_score 1 (mkPages 1 3))
    (by with_unfolding_all decide)

/-- Phase 3 partitions the walked pages: the concatenation of the raw
segments' page lists is the accumulator followed by the remaining
pages. -/
theorem buildRaw_flatten (sel : Nat → PageTag) :
    ∀ (rest : List Nat) (tag : PageTag) (acc : List Nat),
      ((buildRaw sel tag acc rest).map Prod.snd).flatten = acc ++ rest
  | [], tag, acc => by simp [buildRaw]
  | (p :: rest), tag, acc => by
      simp only [buildRaw]
      by_cases hc : (sel p).document_type ≠ tag.document_type
          ∨ (sel p).batch_idx ≠ tag.batch_idx
          ∨ (sel p).segment_idx ≠ tag.segment_idx
      · rw [if_pos hc]
        simp only [List.map_cons, List.flatten_cons]
        rw [buildRaw_flatten sel rest (sel p) [p]]
        simp
      · rw [if_neg hc]
        rw [buildRaw_flatten sel rest tag (acc ++ [p])]
        simp

/-- Phase 3 always yields at least one raw segment. -/
theorem buildRaw_ne_nil (sel : Nat → PageTag) :
    ∀ (rest : List Nat) (tag : PageTag) (acc : List Nat),
      buildRaw sel tag acc rest ≠ []
  | [], tag, acc => by simp [buildRaw]
  | (p :: rest), tag, acc => by
      simp only [buildRaw]
      by_cases hc : (sel p).document_type ≠ tag.document_type
          ∨ (sel p).batch_idx ≠ tag.batch_idx
          ∨ (sel p).segment_idx ≠ tag.segment_idx
      · rw [if_pos hc]
        simp
      · rw [if_neg hc]
        exact buildRaw_ne_nil sel rest tag (acc ++ [p])

/-- Phase 3 never yields a raw segment with an empty page list. -/
theorem buildRaw_pages_ne_nil (sel : Nat → PageTag) :
    ∀ (rest : List Nat) (tag : PageTag) (acc : List Nat), acc ≠ [] →
      ∀ seg ∈ buildRaw sel tag acc rest, seg.2 ≠ []
  | [], tag, acc, hacc, seg, hseg => by
      simp only [buildRaw, List.mem_singleton] at hseg
      rw [hseg]
      exact hacc
  | (p :: rest), tag, acc, hacc, seg, hseg => by
      simp only [buildRaw] at hseg
      by_cases hc : (sel p).document_type ≠ tag.document_type
          ∨ (sel p).batch_idx ≠ tag.batch_idx
          ∨ (sel p).segment_idx ≠ tag.segment_idx
      · rw [if_pos hc] at hseg
        rcases List.mem_cons.mp hseg with h | h
        · rw [h]
          exact hacc
        · exact buildRaw_pages_ne_nil sel rest (sel p) [p] (by simp) seg h
      · rw [if_neg hc] at hseg
        exact buildRaw_pages_ne_nil sel rest tag (acc ++ [p]) (by simp) seg hseg

/-- Phase 4 only concatenates adjacent page lists: the concatenation of
all page lists is preserved. -/
theorem stitch_flatten (pt : Nat → List (PageTag × ℚ)) :
    ∀ (rest : List (PageTag × List Nat)) (prev : PageTag × List Nat),
      ((stitch pt prev rest).map Prod.snd).flatten
        = prev.2 ++ (rest.map Prod.snd).flatten
  | [], prev => by simp [stitch]
  | ((tag, pages) :: rest), prev => by
      rw [stitch]
      by_cases h1 : tag.document_type ≠ prev.1.document_type
      · rw [if_pos h1]
        simp only [List.map_cons, List.flatten_cons]
        rw [stitch_flatten pt rest (tag, pages)]
      · rw [if_neg h1]
        by_cases h2 : sharesOrigin (pt (prev.2.getLastD 0))
            (pt (pages.headD 0)) = true
        · rw [if_pos h2]
          rw [stitch_flatten pt rest (prev.1, prev.2 ++ pages)]
          simp [List.append_assoc]
        · rw [if_neg h2]
          simp only [List.map_cons, List.flatten_cons]
          rw [stitch_flatten pt rest (tag, pages)]

/-- Phase 4 keeps every page list nonempty. -/
theorem stitch_pages_ne_nil (pt : Nat → List (PageTag × ℚ)) :
    ∀ (rest : List (PageTag × List Nat)) (prev : PageTag × List Nat),
      prev.2 ≠ [] → (∀ seg ∈ rest, seg.2 ≠ []) →
      ∀ seg ∈ stitch pt prev rest, seg.2 ≠ []
  | [], prev, hprev, _, seg, hseg => by
      simp only [stitch, List.mem_singleton] at hseg
      rw [hseg]
      exact hprev
  | ((tag, pages) :: rest), prev, hprev, hrest, seg, hseg => by
      have hpages : pages ≠ [] := hrest (tag, pages) (List.mem_cons_self _ _)
      have hrest2 : ∀ s ∈ rest, s.2 ≠ [] :=
        fun s hs => hrest s (List.mem_cons_of_mem _ hs)
      rw [stitch] at hseg
      by_cases h1 : tag.document_type ≠ prev.1.document_type
      · rw [if_pos h1] at hseg
        rcases List.mem_cons.mp hseg with h | h
        · rw [h]; exact hprev
        · exact stitch_pages_ne_nil pt rest (tag, pages) hpages hrest2 seg h
      · rw [if_neg h1] at hseg
        by_cases h2 : sharesOrigin (pt (prev.2.getLastD 0))
            (pt (pages.headD 0)) = true
        · rw [if_pos h2] at hseg
          exact stitch_pages_ne_nil pt rest (prev.1, prev.2 ++ pages)
            (by simp [hpages]) hrest2 seg hseg
        · rw [if_neg h2] at hseg
          rcases List.mem_cons.mp hseg with h | h
          · rw [h]; exact hprev
          · exact stitch_pages_ne_nil pt rest (tag, pages) hpages hrest2 seg h

/-- A page is kept by a segment's window filter iff the same segment
also records an entry for it under the page-specific filter. -/
theorem filter_window_page_iff (bp : List DocumentPage) (p : Nat)
    (l : List Nat) :
    p ∈ l.filter (fun pn => inWindow bp pn) ↔
      l.filter (fun pn => inWindow bp pn && pn == p) ≠ [] := by
  rw [List.mem_filter, ne_eq, List.filter_eq_nil_iff]
  constructor
  · rintro ⟨hmem, hw⟩ hall
    exact hall p hmem (by simp [hw])
  · intro h
    by_contra hcon
    apply h
    intro a ha hpa
    simp only [Bool.and_eq_true, beq_iff_eq] at hpa
    obtain ⟨hw, rfl⟩ := hpa
    exact hcon ⟨ha, hw⟩

/-- A page occurs among one batch's tagged-page occurrences iff that
batch records a tag for it. -/
theorem pagesFromSegments_mem_iff (bp : List DocumentPage) (p bidx : Nat) :
    ∀ (segs : List SplitSegment) (sidx : Nat),
      p ∈ pagesFromSegments bp segs ↔
        tagsFromSegments p bidx bp sidx segs ≠ []
  | [], sidx => by simp [pagesFromSegments, tagsFromSegments]
  | (seg :: rest), sidx => by
      rw [pagesFromSegments, tagsFromSegments, List.mem_append]
      constructor
      · rintro (h | h) hc
        · obtain ⟨h1, h2⟩ := List.append_eq_nil.mp hc
          rw [List.map_eq_nil_iff] at h1
          exact (filter_window_page_iff bp p seg.page_numbers).mp h h1
        · obtain ⟨h1, h2⟩ := List.append_eq_nil.mp hc
          exact (pagesFromSegments_mem_iff bp p bidx rest (sidx + 1)).mp h h2
      · intro h
        by_cases hf :
            seg.page_numbers.filter (fun pn => inWindow bp pn && pn == p) = []
        · right
          apply (pagesFromSegments_mem_iff bp p bidx rest (sidx + 1)).mpr
          intro hrest
          apply h
          rw [List.append_eq_nil]
          exact ⟨List.map_eq_nil_iff.mpr hf, hrest⟩
        · left
          exact (filter_window_page_iff bp p seg.page_numbers).mpr hf

/-- A page occurs among the tagged-page occurrences iff Phase 1 records
some tag for it. -/
theorem pagesFromBatches_mem_iff (p : Nat) :
    ∀ (l : List (LLMSplitClassifyBatchResult × List DocumentPage)) (bidx : Nat),
      p ∈ pagesFromBatches l ↔ tagsFromBatches p bidx l ≠ []
  | [], bidx => by simp [pagesFromBatches, tagsFromBatches]
  | ((res, bp) :: rest), bidx => by
      rw [pagesFromBatches, tagsFromBatches, List.mem_append]
      constructor
      · rintro (h | h) hc
        · obtain ⟨h1, h2⟩ := List.append_eq_nil.mp hc
          exact (pagesFromSegments_mem_iff bp p bidx res.result 0).mp h h1
        · obtain ⟨h1, h2⟩ := List.append_eq_nil.mp hc
          exact (pagesFromBatches_mem_iff p rest (bidx + 1)).mp h h2
      · intro h
        by_cases hf : tagsFromSegments p bidx bp 0 res.result = []
        · right
          apply (pagesFromBatches_mem_iff p rest (bidx + 1)).mpr
          intro hrest
          exact h (by rw [List.append_eq_nil]; exact ⟨hf, hrest⟩)
        · left
          exact (pagesFromSegments_mem_iff bp p bidx res.result 0).mpr hf

/-- Membership in the sorted tagged pages is exactly being tagged in
Phase 1. -/
theorem mem_sortedTaggedPages (br : List LLMSplitClassifyBatchResult)
    (bs : List (List DocumentPage)) (p : Nat) :
    p ∈ sortedTaggedPages br bs ↔ pageTags br bs p ≠ [] := by
  rw [sortedTaggedPages,
    (List.perm_insertionSort (· ≤ ·) (taggedPageOccurrences br bs).dedup).mem_iff,
    List.mem_dedup]
  exact pagesFromBatches_mem_iff p (br.zip bs) 0

/-- The sorted tagged pages are sorted. -/
theorem sortedTaggedPages_sorted (br : List LLMSplitClassifyBatchResult)
    (bs : List (List DocumentPage)) :
    (sortedTaggedPages br bs).Sorted (· ≤ ·) :=
  List.sorted_insertionSort (· ≤ ·) _

/-- The sorted tagged pages carry no duplicate. -/
theorem sortedTaggedPages_nodup (br : List LLMSplitClassifyBatchResult)
    (bs : List (List DocumentPage)) :
    (sortedTaggedPages br bs).Nodup :=
  ((List.perm_insertionSort (· ≤ ·) _).nodup_iff).mpr (List.nodup_dedup _)

/-- The sorted tagged pages are strictly increasing. -/
theorem sortedTaggedPages_pairwise_lt (br : List LLMSplitClassifyBatchResult)
    (bs : List (List DocumentPage)) :
    (sortedTaggedPages br bs).Pairwise (· < ·) :=
  ((sortedTaggedPages_sorted br bs).and (sortedTaggedPages_nodup br bs)).imp
    (fun h => lt_of_le_of_ne h.1 h.2)

/-- The merger's output pages, in order, are exactly the sorted tagged
pages. -/
theorem combine_flatten (br : List LLMSplitClassifyBatchResult)
    (bs : List (List DocumentPage)) :
    ((combine_overlapping_results br bs).map SplitSegment.page_numbers).flatten
      = sortedTaggedPages br bs := by
  by_cases hbr : br.isEmpty
  · obtain rfl : br = [] := List.isEmpty_iff.mp hbr
    rfl
  · have hbr2 : br.isEmpty = false := by simpa using hbr
    cases hst : sortedTaggedPages br bs with
    | nil => simp [combine_overlapping_results, hbr2, hst]
    | cons p0 rest =>
        simp only [combine_overlapping_results, hbr2, Bool.false_eq_true,
          if_false, hst]
        rw [List.map_map]
        have hraw := buildRaw_ne_nil (fun p => selectTagD (pageTags br bs p))
          rest (selectTagD (pageTags br bs p0)) [p0]
        cases hr : buildRaw (fun p => selectTagD (pageTags br bs p))
            (selectTagD (pageTags br bs p0)) [p0] rest with
        | nil => exact absurd hr hraw
        | cons r0 rr =>
            rw [stitchAll]
            have hcomp : (SplitSegment.page_numbers ∘
                fun seg : PageTag × List Nat =>
                  (⟨seg.1.document_type, seg.2⟩ : SplitSegment)) = Prod.snd := rfl
            rw [hcomp, stitch_flatten]
            have : r0.2 ++ (rr.map Prod.snd).flatten
                = (((r0 :: rr).map Prod.snd)).flatten := by simp
            rw [this, ← hr, buildRaw_flatten]
            rfl

/-- Every final segment of the merger has a nonempty page list. -/
theorem combine_pages_ne_nil (br : List LLMSplitClassifyBatchResult)
    (bs : List (List DocumentPage)) :
    ∀ seg ∈ combine_overlapping_results br bs, seg.page_numbers ≠ [] := by
  intro seg hseg
  by_cases hbr : br.isEmpty
  · obtain rfl : br = [] := List.isEmpty_iff.mp hbr
    simp [combine_overlapping_results] at hseg
  · have hbr2 : br.isEmpty = false := by simpa using hbr
    cases hst : sortedTaggedPages br bs with
    | nil => simp [combine_overlapping_results, hbr2, hst] at hseg
    | cons p0 rest =>
        simp only [combine_overlapping_results, hbr2, Bool.false_eq_true,
          if_false, hst] at hseg
        obtain ⟨x, hx, rfl⟩ := List.mem_map.mp hseg
        show x.2 ≠ []
        cases hr : buildRaw (fun p => selectTagD (pageTags br bs p))
            (selectTagD (pageTags br bs p0)) [p0] rest with
        | nil =>
            exact absurd hr (buildRaw_ne_nil _ rest _ [p0])
        | cons r0 rr =>
            rw [hr, stitchAll] at hx
            have hall : ∀ s ∈ buildRaw (fun p => selectTagD (pageTags br bs p))
                (selectTagD (pageTags br bs p0)) [p0] rest, s.2 ≠ [] :=
              buildRaw_pages_ne_nil _ rest _ [p0] (by simp)
            rw [hr] at hall
            exact stitch_pages_ne_nil (pageTags br bs) rr r0
              (hall r0 (List.mem_cons_self _ _))
              (fun s hs => hall s (List.mem_cons_of_mem _ hs)) x hx

/-- A list of lists whose concatenation misses `p` has no member list
containing `p`. -/
theorem countP_eq_zero_of_not_mem_flatten {p : Nat} :
    ∀ (L : List (List Nat)), p ∉ L.flatten →
      L.countP (fun l => decide (p ∈ l)) = 0
  | [], _ => rfl
  | (l :: L), h => by
      rw [List.flatten_cons] at h
      simp only [List.mem_append, not_or] at h
      rw [List.countP_cons, countP_eq_zero_of_not_mem_flatten L h.2]
      simp [h.1]

/-- In a duplicate-free concatenation, a present page lies in exactly
one member list. -/
theorem flatten_nodup_count_one {p : Nat} :
    ∀ (L : List (List Nat)), L.flatten.Nodup → p ∈ L.flatten →
      L.countP (fun l => decide (p ∈ l)) = 1
  | [], _, h => absurd h (List.not_mem_nil p)
  | (l :: L), hnd, h => by
      rw [List.flatten_cons] at hnd h
      rw [List.countP_cons]
      by_cases hp : p ∈ l
      · have hdisj := (List.nodup_append.mp hnd).2.2
        have hnot : p ∉ L.flatten := fun hmem => hdisj hp hmem
        rw [countP_eq_zero_of_not_mem_flatten L hnot]
        simp [hp]
      · have hpL : p ∈ L.flatten := by
          rcases List.mem_append.mp h with h1 | h1
          · exact absurd h1 hp
          · exact h1
        rw [flatten_nodup_count_one L (List.Nodup.of_append_right hnd) hpL]
        simp [hp]

/-- The head of a nonempty list of naturals, under a default. -/
theorem headD_mem_of_ne_nil {l : List Nat} (h : l ≠ []) : l.headD 0 ∈ l := by
  cases l with
  | nil => exact absurd rfl h
  | cons a t => exact List.mem_cons_self a t

/-- Strictly increasing concatenation of nonempty lists has strictly
increasing heads. -/
theorem flatten_pairwise_heads :
    ∀ (L : List (List Nat)), (∀ l ∈ L, l ≠ []) →
      L.flatten.Pairwise (· < ·) →
      (L.map (fun l => l.headD 0)).Pairwise (· < ·)
  | [], _, _ => List.Pairwise.nil
  | (l :: L), hne, hp => by
      rw [List.flatten_cons] at hp
      obtain ⟨-, hpL, hcross⟩ :=
        (List.pairwise_append.mp hp : _ ∧ _ ∧ _)
      rw [List.map_cons]
      refine List.pairwise_cons.mpr ⟨?_, ?_⟩
      · intro b hb
        obtain ⟨l2, hl2, rfl⟩ := List.mem_map.mp hb
        have hl2ne := hne l2 (List.mem_cons_of_mem _ hl2)
        have hlne := hne l (List.mem_cons_self _ _)
        exact hcross (l.headD 0) (headD_mem_of_ne_nil hlne) (l2.headD 0)
          (List.mem_flatten.mpr ⟨l2, hl2, headD_mem_of_ne_nil hl2ne⟩)
      · exact flatten_pairwise_heads L
          (fun x hx => hne x (List.mem_cons_of_mem _ hx)) hpL

/-- C5: partition invariant of the merger — a page receives a tag in
Phase 1 iff it appears among the output pages; every tagged page lies
in exactly one final segment; final segments are ordered by strictly
ascending first page number; an empty tag set yields an empty
output. -/
theorem C5_merger_partition_invariant
    (br : List LLMSplitClassifyBatchResult) (bs : List (List DocumentPage)) :
    (∀ p, pageTags br bs p ≠ [] ↔
        p ∈ ((combine_overlapping_results br bs).map
          SplitSegment.page_numbers).flatten)
    ∧ (∀ p, pageTags br bs p ≠ [] →
        (combine_overlapping_results br bs).countP
          (fun seg => decide (p ∈ seg.page_numbers)) = 1)
    ∧ ((combine_overlapping_results br bs).map
        (fun seg => seg.page_numbers.headD 0)).Pairwise (· < ·)
    ∧ ((∀ p, pageTags br bs p = []) → combine_overlapping_results br bs = []) := by
  have hflat := combine_flatten br bs
  refine ⟨?_, ?_, ?_, ?_⟩
  · intro p
    rw [hflat]
    exact (mem_sortedTaggedPages br bs p).symm
  · intro p hp
    have hmem : p ∈ ((combine_overlapping_results br bs).map
        SplitSegment.page_numbers).flatten := by
      rw [hflat]
      exact (mem_sortedTaggedPages br bs p).mpr hp
    have hnd : ((combine_overlapping_results br bs).map
        SplitSegment.page_numbers).flatten.Nodup := by
      rw [hflat]
      exact sortedTaggedPages_nodup br bs
    have := flatten_nodup_count_one
      ((combine_overlapping_results br bs).map SplitSegment.page_numbers)
      hnd hmem
    rwa [List.countP_map] at this
  · have hmap : (combine_overlapping_results br bs).map
        (fun seg => seg.page_numbers.headD 0)
        = (((combine_overlapping_results br bs).map
            SplitSegment.page_numbers).map (fun l => l.headD 0)) := by
      rw [List.map_map]
      rfl
    rw [hmap]
    apply flatten_pairwise_heads
    · intro l hl
      obtain ⟨seg, hseg, rfl⟩ := List.mem_map.mp hl
      exact combine_pages_ne_nil br bs seg hseg
    · rw [hflat]
      exact sortedTaggedPages_pairwise_lt br bs
  · intro hall
    have hst : sortedTaggedPages br bs = [] := by
      rw [List.eq_nil_iff_forall_not_mem]
      intro p hp
      exact (mem_sortedTaggedPages br bs p).mp hp (hall p)
    cases hout : combine_overlapping_results br bs with
    | nil => rfl
    | cons seg rest =>
        have hne := combine_pages_ne_nil br bs seg (hout ▸ List.mem_cons_self _ _)
        have : ((combine_overlapping_results br bs).map
            SplitSegment.page_numbers).flatten = [] := hflat.trans hst
        rw [hout] at this
        simp only [List.map_cons, List.flatten_cons, List.append_eq_nil] at this
        exact absurd this.1 hne

/-- C5 witness: in the two-batch invoice example, page 4 is tagged and
lies in exactly one final segment. -/
theorem C5_merger_partition_invariant_witness :
    (combine_overlapping_results
        [mkRes [("invoice", [1, 2, 3, 4, 5])], mkRes [("invoice", [4, 5, 6, 7, 8])]]
        [mkPages 1 5, mkPages 4 8]).countP
      (fun seg => decide (4 ∈ seg.page_numbers)) = 1 :=
  (C5_merger_partition_invariant
      [mkRes [("invoice", [1, 2, 3, 4, 5])], mkRes [("invoice", [4, 5, 6, 7, 8])]]
      [mkPages 1 5, mkPages 4 8]).2.1 4 (by with_unfolding_all decide)

/-- A constant-valued map is pairwise under any reflexive-at-the-value
relation. -/
theorem pairwise_map_const {α β : Type} {R : α → α → Prop} {c : α}
    (hc : R c c) : ∀ (l : List β), (l.map (fun _ => c)).Pairwise R
  | [] => List.Pairwise.nil
  | (x :: xs) => by
      rw [List.map_cons]
      refine List.pairwise_cons.mpr ⟨?_, pairwise_map_const hc xs⟩
      intro b hb
      obtain ⟨y, hy, rfl⟩ := List.mem_map.mp hb
      exact hc

/-- Every tag one batch's segments record for a page carries that
batch's index and a segment index at least the running one. -/
theorem tagsFromSegments_idx_bound (p bidx : Nat) (bp : List DocumentPage) :
    ∀ (segs : List SplitSegment) (sidx : Nat) (y : PageTag × ℚ),
      y ∈ tagsFromSegments p bidx bp sidx segs →
      y.1.batch_idx = bidx ∧ sidx ≤ y.1.segment_idx
  | [], _, _, h => absurd h (List.not_mem_nil _)
  | (seg :: rest), sidx, y, h => by
      rw [tagsFromSegments, List.mem_append] at h
      rcases h with h | h
      · obtain ⟨pn, hpn, heq⟩ := List.mem_map.mp h
        rw [← heq]
        exact ⟨rfl, Nat.le_refl _⟩
      · obtain ⟨hb, hs⟩ := tagsFromSegments_idx_bound p bidx bp rest (sidx + 1) y h
        exact ⟨hb, by omega⟩

/-- One batch's tags for a page are recorded in non-decreasing
`(batch_idx, segment_idx)` order. -/
theorem tagsFromSegments_pairwise (p bidx : Nat) (bp : List DocumentPage) :
    ∀ (segs : List SplitSegment) (sidx : Nat),
      (tagsFromSegments p bidx bp sidx segs).Pairwise tagLe
  | [], _ => List.Pairwise.nil
  | (seg :: rest), sidx => by
      rw [tagsFromSegments, List.pairwise_append]
      refine ⟨pairwise_map_const (R := tagLe)
          (c := (⟨seg.document_type, bidx, sidx⟩, centrality_score p bp))
          (Or.inr ⟨rfl, Nat.le_refl _⟩) _,
        tagsFromSegments_pairwise p bidx bp rest (sidx + 1), ?_⟩
      intro x hx y hy
      obtain ⟨pn, hpn, heq⟩ := List.mem_map.mp hx
      obtain ⟨hyb, hys⟩ := tagsFromSegments_idx_bound p bidx bp rest (sidx + 1) y hy
      rw [← heq]
      exact Or.inr ⟨hyb.symm, Nat.le_of_succ_le hys⟩

/-- Every tag recorded at or after batch `bidx` carries a batch index
at least `bidx`. -/
theorem tagsFromBatches_batch_ge (p : Nat) :
    ∀ (l : List (LLMSplitClassifyBatchResult × List DocumentPage))
      (bidx : Nat) (y : PageTag × ℚ),
      y ∈ tagsFromBatches p bidx l → bidx ≤ y.1.batch_idx
  | [], _, _, h => absurd h (List.not_mem_nil _)
  | ((res, bp) :: rest), bidx, y, h => by
      rw [tagsFromBatches, List.mem_append] at h
      rcases h with h | h
      · exact (tagsFromSegments_idx_bound p bidx bp res.result 0 y h).1.ge
      · have := tagsFromBatches_batch_ge p rest (bidx + 1) y h
        omega

/-- Phase 1 records tags in non-decreasing `(batch_idx, segment_idx)`
order. -/
theorem tagsFromBatches_pairwise (p : Nat) :
    ∀ (l : List (LLMSplitClassifyBatchResult × List DocumentPage)) (bidx : Nat),
      (tagsFromBatches p bidx l).Pairwise tagLe
  | [], _ => List.Pairwise.nil
  | ((res, bp) :: rest), bidx => by
      rw [tagsFromBatches, List.pairwise_append]
      refine ⟨tagsFromSegments_pairwise p bidx bp res.result 0,
        tagsFromBatches_pairwise p rest (bidx + 1), ?_⟩
      intro x hx y hy
      have hxb := (tagsFromSegments_idx_bound p bidx bp res.result 0 x hx).1
      have hyb := tagsFromBatches_batch_ge p rest (bidx + 1) y hy
      exact Or.inl (by omega)

/-- Python `max` keeps the first element attaining the maximal key: the
fold's result splits its input so that everything before it scores
strictly lower and nothing scores higher. -/
theorem maxLoop_firstMax :
    ∀ (rest : List (PageTag × ℚ)) (best : PageTag) (s : ℚ),
      ∃ l1 l2, (best, s) :: rest = l1 ++ (maxLoop best s rest) :: l2
        ∧ (∀ y ∈ l1, y.2 < (maxLoop best s rest).2)
        ∧ (∀ y ∈ (best, s) :: rest, y.2 ≤ (maxLoop best s rest).2)
  | [], best, s => by
      refine ⟨[], [], by simp [maxLoop], by simp, ?_⟩
      intro y hy
      rw [List.mem_singleton] at hy
      rw [hy, maxLoop]
  | ((t, s2) :: rest), best, s => by
      rw [maxLoop]
      by_cases hlt : s < s2
      · rw [if_pos hlt]
        obtain ⟨l1, l2, heq, hl1, hall⟩ := maxLoop_firstMax rest t s2
        have hs2 : s2 ≤ (maxLoop t s2 rest).2 :=
          hall (t, s2) (List.mem_cons_self _ _)
        refine ⟨(best, s) :: l1, l2, by rw [List.cons_append, ← heq], ?_, ?_⟩
        · intro y hy
          rcases List.mem_cons.mp hy with h | h
          · rw [h]
            exact lt_of_lt_of_le hlt hs2
          · exact hl1 y h
        · intro y hy
          rcases List.mem_cons.mp hy with h | h
          · rw [h]
            exact le_of_lt (lt_of_lt_of_le hlt hs2)
          · exact hall y h
      · rw [if_neg hlt]
        obtain ⟨l1, l2, heq, hl1, hall⟩ := maxLoop_firstMax rest best s
        cases l1 with
        | nil =>
            rw [List.nil_append, List.cons.injEq] at heq
            obtain ⟨hm, hl2⟩ := heq
            refine ⟨[], (t, s2) :: rest, ?_, by simp, ?_⟩
            · rw [List.nil_append, ← hm]
            · intro y hy
              rcases List.mem_cons.mp hy with h | h
              · rw [h, ← hm]
              · rcases List.mem_cons.mp h with h2 | h2
                · rw [h2, ← hm]
                  exact le_of_not_lt hlt
                · exact hall y (List.mem_cons_of_mem _ h2)
        | cons a l1t =>
            rw [List.cons_append, List.cons.injEq] at heq
            obtain ⟨ha, hrest⟩ := heq
            refine ⟨(best, s) :: (t, s2) :: l1t, l2, ?_, ?_, ?_⟩
            · rw [List.cons_append, List.cons_append, ← hrest]
            · intro y hy
              have hbest : s < (maxLoop best s rest).2 := by
                have := hl1 a (List.mem_cons_self _ _)
                rw [← ha] at this
                exact this
              rcases List.mem_cons.mp hy with h | h
              · rw [h]
                exact hbest
              · rcases List.mem_cons.mp h with h2 | h2
                · rw [h2]
                  exact lt_of_le_of_lt (le_of_not_lt hlt) hbest
                · exact hl1 y (List.mem_cons_of_mem _ h2)
            · intro y hy
              rcases List.mem_cons.mp hy with h | h
              · rw [h]
                exact hall (best, s) (List.mem_cons_self _ _)
              · rcases List.mem_cons.mp h with h2 | h2
                · rw [h2]
                  exact le_trans (le_of_not_lt hlt)
                    (hall (best, s) (List.mem_cons_self _ _))
                · exact hall y (List.mem_cons_of_mem _ h2)

/-- C10: Phase 1 appends a page's tags in ascending
`(batch_idx, segment_idx)` order, and Phase 2's `max` selects the first
recorded tag among those of maximal centrality score — in particular
the one with the lowest batch index and, within it, the lowest segment
index; the merge is thereby a deterministic function of its inputs. -/
theorem C10_phase2_tie_break_first_recorded
    (br : List LLMSplitClassifyBatchResult) (bs : List (List DocumentPage))
    (p : Nat) :
    (pageTags br bs p).Pairwise tagLe
    ∧ (∀ t, selectTag (pageTags br bs p) = some t →
        ∃ s l1 l2, pageTags br bs p = l1 ++ (t, s) :: l2
          ∧ (∀ y ∈ l1, y.2 < s)
          ∧ (∀ y ∈ pageTags br bs p, y.2 ≤ s)
          ∧ (∀ y ∈ pageTags br bs p, s ≤ y.2 → tagLe (t, s) y)) := by
  have hpw : (pageTags br bs p).Pairwise tagLe :=
    tagsFromBatches_pairwise p (br.zip bs) 0
  refine ⟨hpw, ?_⟩
  intro t ht
  cases hpt : pageTags br bs p with
  | nil => rw [hpt, selectTag] at ht; exact absurd ht (by simp)
  | cons x xs =>
      rw [hpt, selectTag] at ht
      obtain ⟨l1, l2, heq, hl1, hall⟩ := maxLoop_firstMax xs x.1 x.2
      rw [Option.some.injEq] at ht
      have hx : (x.1, x.2) = x := rfl
      rw [hx] at heq hall
      refine ⟨(maxLoop x.1 x.2 xs).2, l1, l2, ?_, hl1, ?_, ?_⟩
      · rw [heq, ← ht]
      · intro y hy
        exact hall y hy
      · intro y hy hge
        rw [heq, List.mem_append] at hy
        rcases hy with hy | hy
        · exact absurd hge (not_le.mpr (hl1 y hy))
        · rcases List.mem_cons.mp hy with h2 | h2
          · rw [h2, ← ht]
            exact Or.inr ⟨rfl, Nat.le_refl _⟩
          · rw [hpt, heq] at hpw
            have hpw2 := (List.pairwise_append.mp hpw).2.1
            have hfirst := (List.pairwise_cons.mp hpw2).1 y h2
            rw [← ht]
            exact hfirst

/-- C10 witness: two identical single-page batches tie at score 1; the
tag of batch 0 is selected. -/
theorem C10_phase2_tie_break_first_recorded_witness :
    ∃ s l1 l2, pageTags [mkRes [("a", [1])], mkRes [("a", [1])]]
        [mkPages 1 1, mkPages 1 1] 1
        = l1 ++ ((⟨"a", 0, 0⟩ : PageTag), s) :: l2
      ∧ (∀ y ∈ l1, y.2 < s)
      ∧ (∀ y ∈ pageTags [mkRes [("a", [1])], mkRes [("a", [1])]]
          [mkPages 1 1, mkPages 1 1] 1, y.2 ≤ s)
      ∧ (∀ y ∈ pageTags [mkRes [("a", [1])], mkRes [("a", [1])]]
          [mkPages 1 1, mkPages 1 1] 1, s ≤ y.2 →
            tagLe ((⟨"a", 0, 0⟩ : PageTag), s) y) :=
  (C10_phase2_tie_break_first_recorded
      [mkRes [("a", [1])], mkRes [("a", [1])]] [mkPages 1 1, mkPages 1 1] 1).2
    ⟨"a", 0, 0⟩ (by with_unfolding_all decide)

/-- `split_and_classify` on a missing document: empty result, no state
change, no classifier call. -/
theorem split_none (w : World) (document_id : String) (pc : PromptConfig)
    (case_type : String) (force : Bool)
    (oracle : Nat → List DocumentPage → Except LLMError LLMSplitClassifyBatchResult)
    (hdoc : w.doc = none) :
    split_and_classify w document_id pc case_type force oracle
      = (Except.ok ⟨[], []⟩, w, 0) := by
  rw [split_and_classify, hdoc]

/-- `split_and_classify` on a cache hit: the result view is rebuilt
from the persisted sub-documents, the state is untouched and the
classifier is never invoked. -/
theorem split_cached (w : World) (document_id : String) (pc : PromptConfig)
    (case_type : String) (force : Bool)
    (oracle : Nat → List DocumentPage → Except LLMError LLMSplitClassifyBatchResult)
    (doc : Document) (hdoc : w.doc = some doc)
    (hcache : cacheHit force doc (doc.file_metadata.getD "")
        (calculate_content_hash (dumpConfig pc)) case_type = true) :
    split_and_classify w document_id pc case_type force oracle
      = (Except.ok ⟨cachedSegments doc.subdocuments, doc.subdocuments⟩, w, 0) := by
  rw [split_and_classify, hdoc]
  simp only [hcache, if_true]

/-- `split_and_classify` on a cache miss with no pages: empty result,
no state change, no classifier call. -/
theorem split_no_pages (w : World) (document_id : String) (pc : PromptConfig)
    (case_type : String) (force : Bool)
    (oracle : Nat → List DocumentPage → Except LLMError LLMSplitClassifyBatchResult)
    (doc : Document) (hdoc : w.doc = some doc)
    (hcache : cacheHit force doc (doc.file_metadata.getD "")
        (calculate_content_hash (dumpConfig pc)) case_type = false)
    (hpages : (sortPages w.pages).isEmpty = true) :
    split_and_classify w document_id pc case_type force oracle
      = (Except.ok ⟨[], []⟩, w, 0) := by
  rw [split_and_classify, hdoc]
  simp only [hcache, Bool.false_eq_true, if_false, hpages, if_true]

/-- `split_and_classify` when some batch's classification raises: the
error propagates, the state is untouched, and the classifier was called
exactly up to the failing batch. -/
theorem split_classify_error (w : World) (document_id : String)
    (pc : PromptConfig) (case_type : String) (force : Bool)
    (oracle : Nat → List DocumentPage → Except LLMError LLMSplitClassifyBatchResult)
    (doc : Document) (hdoc : w.doc = some doc)
    (hcache : cacheHit force doc (doc.file_metadata.getD "")
        (calculate_content_hash (dumpConfig pc)) case_type = false)
    (hpages : (sortPages w.pages).isEmpty = false)
    (e : LLMError) (n : Nat)
    (hloop : classifyLoop oracle 1
        (batch_pages_with_overlap (sortPages w.pages)
          (pyOr pc.batch_size 12) (pyOr pc.overlap_factor 3))
      = (Except.error e, n)) :
    split_and_classify w document_id pc case_type force oracle
      = (Except.error e, w, n) := by
  rw [split_and_classify, hdoc]
  simp only [hcache, Bool.false_eq_true, if_false, hpages, hloop]

/-- `split_and_classify` on a successful reclassification: the merged
segments are returned and the new sub-documents and run metadata are
persisted on the document. -/
theorem split_reclassify_ok (w : World) (document_id : String)
    (pc : PromptConfig) (case_type : String) (force : Bool)
    (oracle : Nat → List DocumentPage → Except LLMError LLMSplitClassifyBatchResult)
    (doc : Document) (hdoc : w.doc = some doc)
    (hcache : cacheHit force doc (doc.file_metadata.getD "")
        (calculate_content_hash (dumpConfig pc)) case_type = false)
    (hpages : (sortPages w.pages).isEmpty = false)
    (results : List LLMSplitClassifyBatchResult) (n : Nat)
    (hloop : classifyLoop oracle 1
        (batch_pages_with_overlap (sortPages w.pages)
          (pyOr pc.batch_size 12) (pyOr pc.overlap_factor 3))
      = (Except.ok results, n)) :
    split_and_classify w document_id pc case_type force oracle
      = (Except.ok
          ⟨combine_overlapping_results results
              (batch_pages_with_overlap (sortPages w.pages)
                (pyOr pc.batch_size 12) (pyOr pc.overlap_factor 3)),
            build_subdocuments document_id case_type
              (combine_overlapping_results results
                (batch_pages_with_overlap (sortPages w.pages)
                  (pyOr pc.batch_size 12) (pyOr pc.overlap_factor 3)))
              (sortPages w.pages)⟩,
          { w with doc := some { doc with
              subdocuments := build_subdocuments document_id case_type
                (combine_overlapping_results results
                  (batch_pages_with_overlap (sortPages w.pages)
                    (pyOr pc.batch_size 12) (pyOr pc.overlap_factor 3)))
                (sortPages w.pages),
              split_classify_meta := some ⟨doc.file_metadata.getD "",
                calculate_content_hash (dumpConfig pc), case_type⟩ } }, n) := by
  rw [split_and_classify, hdoc]
  simp only [hcache, Bool.false_eq_true, if_false, hpages, hloop]

/-- C9: atomicity on failure — whenever `split_and_classify` raises
(any batch's transport or validation error), the world after the call
equals the world before it: no sub-documents and no run metadata were
persisted, and no partial merge happened. -/
theorem C9_failed_run_leaves_state_unchanged (w : World) (document_id : String)
    (pc : PromptConfig) (case_type : String) (force : Bool)
    (oracle : Nat → List DocumentPage → Except LLMError LLMSplitClassifyBatchResult)
    (e : LLMError) (w2 : World) (n : Nat)
    (h : split_and_classify w document_id pc case_type force oracle
        = (Except.error e, w2, n)) :
    w2 = w := by
  cases hdoc : w.doc with
  | none =>
      rw [split_none w document_id pc case_type force oracle hdoc] at h
      simp at h
  | some doc =>
      by_cases hcache : cacheHit force doc (doc.file_metadata.getD "")
          (calculate_content_hash (dumpConfig pc)) case_type = true
      · rw [split_cached w document_id pc case_type force oracle doc hdoc hcache]
          at h
        simp at h
      · have hcache2 : cacheHit force doc (doc.file_metadata.getD "")
            (calculate_content_hash (dumpConfig pc)) case_type = false := by
          simpa using hcache
        by_cases hpages : (sortPages w.pages).isEmpty = true
        · rw [split_no_pages w document_id pc case_type force oracle doc hdoc
            hcache2 hpages] at h
          simp at h
        · have hpages2 : (sortPages w.pages).isEmpty = false := by
            simpa using hpages
          rcases hloop : classifyLoop oracle 1
              (batch_pages_with_overlap (sortPages w.pages)
                (pyOr pc.batch_size 12) (pyOr pc.overlap_factor 3)) with
            ⟨res, nl⟩
          cases res with
          | error e2 =>
              rw [split_classify_error w document_id pc case_type force oracle
                doc hdoc hcache2 hpages2 e2 nl hloop] at h
              simp only [Prod.mk.injEq] at h
              exact h.2.1.symm
          | ok results =>
              rw [split_reclassify_ok w document_id pc case_type force oracle
                doc hdoc hcache2 hpages2 results nl hloop] at h
              simp at h

/-- Each final segment's page list is sorted ascending. -/
theorem combine_pages_sorted (br : List LLMSplitClassifyBatchResult)
    (bs : List (List DocumentPage)) :
    ∀ seg ∈ combine_overlapping_results br bs,
      seg.page_numbers.Sorted (· ≤ ·) := by
  intro seg hseg
  have hsub := List.sublist_flatten_of_mem
    (List.mem_map_of_mem SplitSegment.page_numbers hseg)
  rw [combine_flatten] at hsub
  exact List.Pairwise.sublist hsub (sortedTaggedPages_sorted br bs)

/-- A page among one batch's occurrences lies in that batch's
window. -/
theorem pagesFromSegments_window (bp : List DocumentPage) :
    ∀ (segs : List SplitSegment) (p : Nat),
      p ∈ pagesFromSegments bp segs → inWindow bp p = true
  | [], p, h => absurd h (List.not_mem_nil _)
  | (seg :: rest), p, h => by
      rw [pagesFromSegments, List.mem_append] at h
      rcases h with h | h
      · exact (List.mem_filter.mp h).2
      · exact pagesFromSegments_window bp rest p h

/-- A tagged page lies in the window of some zipped batch. -/
theorem pagesFromBatches_window :
    ∀ (l : List (LLMSplitClassifyBatchResult × List DocumentPage)) (p : Nat),
      p ∈ pagesFromBatches l → ∃ x ∈ l, inWindow x.2 p = true
  | [], p, h => absurd h (List.not_mem_nil _)
  | ((res, bp) :: rest), p, h => by
      rw [pagesFromBatches, List.mem_append] at h
      rcases h with h | h
      · exact ⟨(res, bp), List.mem_cons_self _ _,
          pagesFromSegments_window bp res.result p h⟩
      · obtain ⟨x, hx, hw⟩ := pagesFromBatches_window rest p h
        exact ⟨x, List.mem_cons_of_mem _ hx, hw⟩

/-- When every batch window consists of known pages, every output page
number of the merger resolves in the page lookup. -/
theorem combine_pages_resolvable (br : List LLMSplitClassifyBatchResult)
    (bs : List (List DocumentPage)) (pages : List DocumentPage)
    (hsub : ∀ b ∈ bs, ∀ pg ∈ b, pg ∈ pages) :
    ∀ seg ∈ combine_overlapping_results br bs, ∀ pn ∈ seg.page_numbers,
      (pageByNumber pages pn).isSome = true := by
  intro seg hseg pn hpn
  have hmem : pn ∈ sortedTaggedPages br bs := by
    rw [← combine_flatten br bs]
    exact List.mem_flatten.mpr ⟨seg.page_numbers,
      List.mem_map_of_mem _ hseg, hpn⟩
  rw [sortedTaggedPages, (List.perm_insertionSort (· ≤ ·) _).mem_iff,
    List.mem_dedup] at hmem
  obtain ⟨x, hx, hw⟩ := pagesFromBatches_window (br.zip bs) pn hmem
  obtain ⟨res2, bp2⟩ := x
  rw [inWindow, List.any_eq_true] at hw
  obtain ⟨pg, hpg, hpgn⟩ := hw
  have hbp : bp2 ∈ bs := (List.of_mem_zip hx).2
  have hpages : pg ∈ pages := hsub bp2 hbp pg hpg
  rw [pageByNumber]
  exact List.find?_isSome.mpr ⟨pg, List.mem_reverse.mpr hpages, hpgn⟩

/-- Resolving a fully-resolvable page-number list keeps exactly those
page numbers on the produced references. -/
theorem pageRefs_map_page_number (document_id : String)
    (pages : List DocumentPage) :
    ∀ (pns : List Nat),
      (∀ pn ∈ pns, (pageByNumber pages pn).isSome = true) →
      ((pns.filterMap (fun pn => (pageByNumber pages pn).map
          (fun page => (⟨document_id, page.id, pn⟩ : SubDocumentPageRef)))).map
        (fun pr => pr.page_number)) = pns
  | [], _ => rfl
  | (pn :: rest), hall => by
      obtain ⟨pg, hpg⟩ := Option.isSome_iff_exists.mp
        (hall pn (List.mem_cons_self _ _))
      rw [List.filterMap_cons_some (by rw [hpg]; exact Option.map_some' pg _)]
      rw [List.map_cons]
      rw [pageRefs_map_page_number document_id pages rest
        (fun x hx => hall x (List.mem_cons_of_mem _ hx))]

/-- Rebuilding one persisted sub-document recovers its source segment
when the segment is nonempty, sorted and fully resolvable. -/
theorem buildSubdocument_rebuild (document_id case_type : String)
    (pages : List DocumentPage) (seg : SplitSegment)
    (hne : seg.page_numbers ≠ [])
    (hsorted : seg.page_numbers.Sorted (· ≤ ·))
    (hres : ∀ pn ∈ seg.page_numbers, (pageByNumber pages pn).isSome = true) :
    ∃ sd, buildSubdocument document_id case_type pages seg = some sd
      ∧ sd.document_type = seg.document_type
      ∧ List.insertionSort (· ≤ ·) (sd.page_refs.map (fun pr => pr.page_number))
          = seg.page_numbers := by
  simp only [buildSubdocument]
  have hmap := pageRefs_map_page_number document_id pages seg.page_numbers hres
  have hrefs : (seg.page_numbers.filterMap (fun pn => (pageByNumber pages pn).map
      (fun page => (⟨document_id, page.id, pn⟩ : SubDocumentPageRef)))) ≠ [] := by
    intro hnil
    rw [hnil] at hmap
    exact hne hmap.symm
  rw [if_neg (by simpa using List.isEmpty_eq_false.mpr hrefs)]
  refine ⟨_, rfl, rfl, ?_⟩
  rw [hmap]
  exact hsorted.insertionSort_eq

/-- Rebuilding the cached view from freshly built sub-documents
recovers the segments, provided each segment is nonempty, sorted and
fully resolvable. -/
theorem cachedSegments_build (document_id case_type : String)
    (pages : List DocumentPage) :
    ∀ (segments : List SplitSegment),
      (∀ seg ∈ segments, seg.page_numbers ≠ []) →
      (∀ seg ∈ segments, seg.page_numbers.Sorted (· ≤ ·)) →
      (∀ seg ∈ segments, ∀ pn ∈ seg.page_numbers,
          (pageByNumber pages pn).isSome = true) →
      cachedSegments (build_subdocuments document_id case_type segments pages)
        = segments
  | [], _, _, _ => rfl
  | (seg :: rest), hne, hsorted, hres => by
      obtain ⟨sd, hsd, hdt, hpn⟩ := buildSubdocument_rebuild document_id
        case_type pages seg (hne seg (List.mem_cons_self _ _))
        (hsorted seg (List.mem_cons_self _ _))
        (hres seg (List.mem_cons_self _ _))
      rw [build_subdocuments, List.filterMap_cons_some hsd]
      rw [cachedSegments, List.map_cons]
      have htail := cachedSegments_build document_id case_type pages rest
        (fun s hs => hne s (List.mem_cons_of_mem _ hs))
        (fun s hs => hsorted s (List.mem_cons_of_mem _ hs))
        (fun s hs => hres s (List.mem_cons_of_mem _ hs))
      rw [build_subdocuments, cachedSegments] at htail
      rw [htail]
      congr 1
      cases seg with
      | mk dt pns =>
          simp only at hdt hpn
          rw [hdt, hpn]

/-- The idempotency gate fires on a document whose persisted
sub-documents and matching run metadata exist. -/
theorem cacheHit_of_meta (d : Document) (m : SplitClassifyMeta)
    (hsub : d.subdocuments ≠ []) (hm : d.split_classify_meta = some m)
    (sha cfg ct : String)
    (hsha : m.file_sha256 = sha) (hcfg : m.config_hash = cfg)
    (hct : m.case_type = ct) :
    cacheHit false d sha cfg ct = true := by
  rw [cacheHit, hm]
  simp [hsub, hsha, hcfg, hct]

/-- C1: idempotence of `split_and_classify` — after a first successful
call with `force=False` whose persisted sub-documents exist and whose
run metadata equals the request's file hash, config hash and case
type, a second call with `force=False` makes zero classifier calls,
leaves the world unchanged, and returns segments rebuilt from the
persisted sub-documents, identical to the first call's segments. -/
theorem C1_second_call_cached_and_identical
    (w0 w1 : World) (document_id : String) (pc : PromptConfig)
    (case_type : String)
    (oracle oracle2 : Nat → List DocumentPage →
      Except LLMError LLMSplitClassifyBatchResult)
    (r1 : SplitClassifyResult) (n1 : Nat) (d1 : Document)
    (m : SplitClassifyMeta)
    (h1 : split_and_classify w0 document_id pc case_type false oracle
        = (Except.ok r1, w1, n1))
    (hd : w1.doc = some d1)
    (hsub : d1.subdocuments ≠ [])
    (hm : d1.split_classify_meta = some m)
    (hsha : m.file_sha256 = d1.file_metadata.getD "")
    (hcfg : m.config_hash = calculate_content_hash (dumpConfig pc))
    (hct : m.case_type = case_type) :
    split_and_classify w1 document_id pc case_type false oracle2
      = (Except.ok ⟨cachedSegments d1.subdocuments, d1.subdocuments⟩, w1, 0)
    ∧ cachedSegments d1.subdocuments = r1.segments := by
  have hcache1 : cacheHit false d1 (d1.file_metadata.getD "")
      (calculate_content_hash (dumpConfig pc)) case_type = true :=
    cacheHit_of_meta d1 m hsub hm _ _ _ hsha hcfg hct
  refine ⟨split_cached w1 document_id pc case_type false oracle2 d1 hd hcache1, ?_⟩
  cases hdoc : w0.doc with
  | none =>
      rw [split_none w0 document_id pc case_type false oracle hdoc] at h1
      simp only [Prod.mk.injEq] at h1
      obtain ⟨-, hw, -⟩ := h1
      rw [← hw, hdoc] at hd
      exact absurd hd (by simp)
  | some doc =>
      by_cases hcache0 : cacheHit false doc (doc.file_metadata.getD "")
          (calculate_content_hash (dumpConfig pc)) case_type = true
      · rw [split_cached w0 document_id pc case_type false oracle doc hdoc
          hcache0] at h1
        simp only [Prod.mk.injEq, Except.ok.injEq] at h1
        obtain ⟨hr, hw, -⟩ := h1
        rw [← hw, hdoc, Option.some.injEq] at hd
        rw [← hr, ← hd]
      · have hcache0f : cacheHit false doc (doc.file_metadata.getD "")
            (calculate_content_hash (dumpConfig pc)) case_type = false := by
          simpa using hcache0
        by_cases hpages : (sortPages w0.pages).isEmpty = true
        · rw [split_no_pages w0 document_id pc case_type false oracle doc hdoc
            hcache0f hpages] at h1
          simp only [Prod.mk.injEq, Except.ok.injEq] at h1
          obtain ⟨hr, hw, -⟩ := h1
          rw [← hw, hdoc, Option.some.injEq] at hd
          rw [hd] at hcache0f
          rw [hcache1] at hcache0f
          exact absurd hcache0f (by simp)
        · have hpagesf : (sortPages w0.pages).isEmpty = false := by
            simpa using hpages
          rcases hloop : classifyLoop oracle 1
              (batch_pages_with_overlap (sortPages w0.pages)
                (pyOr pc.batch_size 12) (pyOr pc.overlap_factor 3)) with
            ⟨res, nl⟩
          cases res with
          | error e =>
              rw [split_classify_error w0 document_id pc case_type false oracle
                doc hdoc hcache0f hpagesf e nl hloop] at h1
              simp at h1
          | ok results =>
              rw [split_reclassify_ok w0 document_id pc case_type false oracle
                doc hdoc hcache0f hpagesf results nl hloop] at h1
              simp only [Prod.mk.injEq, Except.ok.injEq] at h1
              obtain ⟨hr, hw, -⟩ := h1
              have hd2 : some { doc with
                  subdocuments := build_subdocuments document_id case_type
                    (combine_overlapping_results results
                      (batch_pages_with_overlap (sortPages w0.pages)
                        (pyOr pc.batch_size 12) (pyOr pc.overlap_factor 3)))
                    (sortPages w0.pages),
                  split_classify_meta := some ⟨doc.file_metadata.getD "",
                    calculate_content_hash (dumpConfig pc), case_type⟩ }
                  = some d1 := by
                rw [← hd, ← hw]
              rw [Option.some.injEq] at hd2
              rw [← hr, ← hd2]
              exact cachedSegments_build document_id case_type
                (sortPages w0.pages)
                (combine_overlapping_results results
                  (batch_pages_with_overlap (sortPages w0.pages)
                    (pyOr pc.batch_size 12) (pyOr pc.overlap_factor 3)))
                (combine_pages_ne_nil results _)
                (combine_pages_sorted results _)
                (combine_pages_resolvable results _ (sortPages w0.pages)
                  (fun b hb pg hpg =>
                    batch_pages_subset (sortPages w0.pages)
                      (pyOr pc.batch_size 12) (pyOr pc.overlap_factor 3)
                      b hb pg hpg))

/-- C1 witness: a one-page document is classified once; the second call
is served from the persisted sub-documents with zero classifier calls
and identical segments. -/
theorem C1_second_call_cached_and_identical_witness :
    (split_and_classify
        { doc := some ⟨some "h",
            [⟨"d|generic|a|1", "generic", "a", [⟨"d", "1", 1⟩]⟩],
            some ⟨"h", "gpt-4.1|||3|3|none|none", "generic"⟩⟩,
          pages := [⟨1, "1"⟩] } ("d") {} ("generic") false
        (fun _ _ => Except.ok (mkRes [("a", [1])]))
      = (Except.ok
          ⟨cachedSegments [⟨"d|generic|a|1", "generic", "a", [⟨"d", "1", 1⟩]⟩],
            [⟨"d|generic|a|1", "generic", "a", [⟨"d", "1", 1⟩]⟩]⟩,
          { doc := some ⟨some "h",
              [⟨"d|generic|a|1", "generic", "a", [⟨"d", "1", 1⟩]⟩],
              some ⟨"h", "gpt-4.1|||3|3|none|none", "generic"⟩⟩,
            pages := [⟨1, "1"⟩] }, 0))
    ∧ cachedSegments [⟨"d|generic|a|1", "generic", "a", [⟨"d", "1", 1⟩]⟩]
      = (⟨[⟨"a", [1]⟩],
          [⟨"d|generic|a|1", "generic", "a", [⟨"d", "1", 1⟩]⟩]⟩ :
            SplitClassifyResult).segments :=
  C1_second_call_cached_and_identical
    { doc := some ⟨some "h", [], none⟩, pages := [⟨1, "1"⟩] }
    { doc := some ⟨some "h",
        [⟨"d|generic|a|1", "generic", "a", [⟨"d", "1", 1⟩]⟩],
        some ⟨"h", "gpt-4.1|||3|3|none|none", "generic"⟩⟩,
      pages := [⟨1, "1"⟩] }
    ("d") {} ("generic")
    (fun _ _ => Except.ok (mkRes [("a", [1])]))
    (fun _ _ => Except.ok (mkRes [("a", [1])]))
    ⟨[⟨"a", [1]⟩], [⟨"d|generic|a|1", "generic", "a", [⟨"d", "1", 1⟩]⟩]⟩ 1
    ⟨some "h", [⟨"d|generic|a|1", "generic", "a", [⟨"d", "1", 1⟩]⟩],
      some ⟨"h", "gpt-4.1|||3|3|none|none", "generic"⟩⟩
    ⟨"h", "gpt-4.1|||3|3|none|none", "generic"⟩
    (by with_unfolding_all decide) rfl (by decide) rfl rfl
    (by with_unfolding_all decide) rfl

/-- C9 witness: a one-page document whose single batch raises a
transport error keeps its world unchanged. -/
theorem C9_failed_run_leaves_state_unchanged_witness :
    ({ doc := some ⟨some "h", [], none⟩, pages := mkPages 1 1 } : World)
      = { doc := some ⟨some "h", [], none⟩, pages := mkPages 1 1 } :=
  C9_failed_run_leaves_state_unchanged
    { doc := some ⟨some "h", [], none⟩, pages := mkPages 1 1 }
    ("d") { sys_prompt_template := "" } ("generic") false
    (fun _ _ => Except.error LLMError.transport) LLMError.transport
    { doc := some ⟨some "h", [], none⟩, pages := mkPages 1 1 } 1
    (by with_unfolding_all decide)

end Mydocs
